import Mathlib

/-!
# Machine driver glue: Return of the Jedi, TRS-80, Acorn Atom, Macintosh sound

A shallow embedding of the register handlers, timer callbacks and image
loaders of the drivers `mame/drivers/jedi.c`, `mess/machine/trs80.c`,
`mess/drivers/atom.c` and `mess/audio/mac.c`, with the properties proved
about them.

Conventions: bytes and offsets are natural numbers, C `int` values are
integers, the host core's devices (input ports, CPU lines, memory regions)
are explicit arguments and results.
-/

/-! ## Return of the Jedi (`mame/drivers/jedi.c`) -/

namespace Jedi

/-- Level of a CPU input line, as the host core names them. -/
inductive LineState where
  | CLEAR_LINE
  | ASSERT_LINE
  deriving DecidableEq, Repr

/-- The fields of `jedi_state` the main CPU handlers of this file touch,
together with the selected entry of `bank1`. -/
structure jedi_state where
  a2d_select : Nat
  nvram_enabled : Nat
  m_nvram : List Nat
  bank1 : Nat
  deriving DecidableEq, Repr

/-- The IRQ lines of the two 6502s. -/
structure IrqLines where
  maincpu : LineState
  audiocpu : LineState
  deriving DecidableEq, Repr

/-- The analog input ports read by the A/D converter. -/
structure StickPorts where
  STICKY : Nat
  STICKX : Nat
  deriving DecidableEq, Repr

/-- The level `(scanline & 32) ? CLEAR_LINE : ASSERT_LINE` on a C `int`. -/
def irq_level (scanline : Int) : LineState :=
  if Int.land scanline 32 ≠ 0 then LineState.CLEAR_LINE else LineState.ASSERT_LINE

/-- The update `scanline += 32; if (scanline > 256) scanline = 32;`. -/
def next_scanline (scanline : Int) : Int :=
  if scanline + 32 > 256 then 32 else scanline + 32

/-- The callback `TIMER_CALLBACK( generate_interrupt )`: the levels driven on the two IRQ
lines and the parameter handed to `interrupt_timer->adjust`. -/
def generate_interrupt (param : Int) : IrqLines × Int :=
  let scanline := param
  (⟨irq_level scanline, irq_level scanline⟩, next_scanline scanline)

/-- The parameter `MACHINE_START( jedi )` installs in the interrupt timer. -/
def MACHINE_START_param : Int := 32

/-- The parameter received by the `n`-th `generate_interrupt` callback after
`MACHINE_START`: each callback re-arms the timer with its second result. -/
def scheduled : Nat → Int
  | 0 => MACHINE_START_param
  | n + 1 => (generate_interrupt (scheduled n)).2

/-- The reset `MACHINE_RESET( jedi )`. -/
def MACHINE_RESET (s : jedi_state) : jedi_state :=
  { s with a2d_select := 0, nvram_enabled := 0 }

/-- The handler `WRITE8_HANDLER( rom_banksel_w )`. -/
def rom_banksel_w (s : jedi_state) (_offset data : Nat) : jedi_state :=
  let s1 := if data &&& 0x01 ≠ 0 then { s with bank1 := 0 } else s
  let s2 := if data &&& 0x02 ≠ 0 then { s1 with bank1 := 1 } else s1
  if data &&& 0x04 ≠ 0 then { s2 with bank1 := 2 } else s2

/-- The handler `READ8_HANDLER( a2d_data_r )`. -/
def a2d_data_r (s : jedi_state) (ports : StickPorts) : Nat :=
  match s.a2d_select with
  | 0 => ports.STICKY
  | 2 => ports.STICKX
  | _ => 0

/-- The handler `WRITE8_HANDLER( a2d_select_w )`. -/
def a2d_select_w (s : jedi_state) (offset _data : Nat) : jedi_state :=
  { s with a2d_select := offset }

/-- The handler `WRITE8_HANDLER( nvram_data_w )`. -/
def nvram_data_w (s : jedi_state) (offset data : Nat) : jedi_state :=
  if s.nvram_enabled ≠ 0 then { s with m_nvram := s.m_nvram.set offset data } else s

/-- The handler `WRITE8_HANDLER( nvram_enable_w )`: `~offset & 1` on the 32-bit `offs_t`. -/
def nvram_enable_w (s : jedi_state) (offset _data : Nat) : jedi_state :=
  { s with nvram_enabled := (0xFFFFFFFF - offset % 2 ^ 32) &&& 1 }

/-- A write of the main CPU that reaches one of the handlers of this file;
`other` stands for the writes main_map routes to plain RAM, to the no-op
ranges and to the audio and video handlers, none of which touches the
fields above. -/
inductive MainWrite where
  | nvram_data (offset data : Nat)
  | nvram_enable (offset data : Nat)
  | a2d_select (offset data : Nat)
  | rom_banksel (offset data : Nat)
  | other
  deriving DecidableEq, Repr

/-- Dispatch of one main CPU write. -/
def write (s : jedi_state) : MainWrite → jedi_state
  | .nvram_data o d => nvram_data_w s o d
  | .nvram_enable o d => nvram_enable_w s o d
  | .a2d_select o d => a2d_select_w s o d
  | .rom_banksel o d => rom_banksel_w s o d
  | .other => s

/-- The state after a sequence of main CPU writes, oldest first. -/
def run (s : jedi_state) (ws : List MainWrite) : jedi_state :=
  ws.foldl write s

/-- Offset of the most recent `nvram_enable_w` write of a sequence (oldest
first), if there is one. -/
def lastEnable : List MainWrite → Option Nat
  | [] => none
  | w :: ws =>
    match lastEnable ws with
    | some o => some o
    | none =>
      match w with
      | .nvram_enable o _ => some o
      | _ => none

/-- Whether the most recent `nvram_enable_w` write of a sequence exists and
went to an even offset (0x1C00, "Enable NVRAM"). -/
def nvramOpen (ws : List MainWrite) : Bool :=
  match lastEnable ws with
  | some o => o % 2 == 0
  | none => false

/-- An entry of an address map: `AM_RANGE(start, stop) AM_MIRROR(mirror)`;
an entry without `AM_MIRROR` has mirror 0. -/
structure MapEntry where
  start : Nat
  stop : Nat
  mirror : Nat
  deriving DecidableEq, Repr

/-- The ranges and mirrors of `ADDRESS_MAP_START( main_map, ... )`, in the
order of the source. -/
def main_map : List MapEntry :=
  [ ⟨0x0000, 0x07ff, 0⟩,
    ⟨0x0800, 0x08ff, 0x0300⟩,
    ⟨0x0c00, 0x0c00, 0x03fe⟩,
    ⟨0x0c01, 0x0c01, 0x03fe⟩,
    ⟨0x1000, 0x13ff, 0⟩,
    ⟨0x1400, 0x1400, 0x03ff⟩,
    ⟨0x1800, 0x1800, 0x03ff⟩,
    ⟨0x1c00, 0x1c01, 0x007f⟩,
    ⟨0x1c80, 0x1c82, 0x0078⟩,
    ⟨0x1c83, 0x1c87, 0x0078⟩,
    ⟨0x1d00, 0x1d00, 0x007f⟩,
    ⟨0x1d80, 0x1d80, 0x007f⟩,
    ⟨0x1e00, 0x1e00, 0x007f⟩,
    ⟨0x1e80, 0x1e81, 0x0078⟩,
    ⟨0x1e82, 0x1e83, 0x0078⟩,
    ⟨0x1e84, 0x1e84, 0x0078⟩,
    ⟨0x1e85, 0x1e85, 0x0078⟩,
    ⟨0x1e86, 0x1e86, 0x0078⟩,
    ⟨0x1e87, 0x1e87, 0x0078⟩,
    ⟨0x1f00, 0x1f00, 0x007f⟩,
    ⟨0x1f80, 0x1f80, 0x007f⟩,
    ⟨0x2000, 0x27ff, 0⟩,
    ⟨0x2800, 0x2fff, 0⟩,
    ⟨0x3000, 0x37bf, 0⟩,
    ⟨0x37c0, 0x3bff, 0⟩,
    ⟨0x3c00, 0x3c01, 0x00fe⟩,
    ⟨0x3d00, 0x3d01, 0x00fe⟩,
    ⟨0x3e00, 0x3e00, 0x01ff⟩,
    ⟨0x4000, 0x7fff, 0⟩,
    ⟨0x8000, 0xffff, 0⟩ ]

/-- Whether a 16-bit address matches an entry expanded by its mirror mask:
the address with the mirror bits cleared lies in `[start, stop]`. -/
def MapEntry.hit (a : Nat) (e : MapEntry) : Bool :=
  decide (e.start ≤ a &&& (0xFFFF ^^^ e.mirror)) && decide (a &&& (0xFFFF ^^^ e.mirror) ≤ e.stop)

/-- Number of entries of `main_map` a 16-bit address matches. -/
def main_map_hits (a : Nat) : Nat := main_map.countP (MapEntry.hit a)

/-- Size of the region `ROM_REGION( 0x1C000, "maincpu", 0 )`. -/
def maincpu_region_size : Nat := 0x1C000

/-- The `ROM_LOAD` lines of region "maincpu" in `ROM_START( jedi )`: name,
offset, length and the page the source's comment names, if any. -/
def maincpu_rom_loads : List (String × Nat × Nat × Option Nat) :=
  [ ("136030-221.14f", 0x08000, 0x4000, none),
    ("136030-222.13f", 0x0c000, 0x4000, none),
    ("136030-123.13d", 0x10000, 0x4000, some 0),
    ("136030-124.13b", 0x14000, 0x4000, some 1),
    ("136030-122.13a", 0x18000, 0x4000, some 2) ]

/-- Number of entries given to `memory_configure_bank(machine, "bank1", 0, 3,
base + 0x10000, 0x4000)`. -/
def bank1_entries : Nat := 3

/-- Offset in region "maincpu" of entry `k` of "bank1" as configured by
`memory_configure_bank(machine, "bank1", 0, 3, base + 0x10000, 0x4000)`. -/
def bank1_offset (k : Nat) : Nat := 0x10000 + k * 0x4000

/-- Length of one entry of "bank1" (the stride of `memory_configure_bank`). -/
def bank1_stride : Nat := 0x4000

/-- Index of the highest set bit of `data` among bits 0..2, for a `data` with
one of them set. -/
def highest_bank_bit (data : Nat) : Nat :=
  if data.testBit 2 then 2 else if data.testBit 1 then 1 else 0

end Jedi

/-! ## TRS-80 (`mess/machine/trs80.c`) -/

namespace TRS80

/-! ### Cassette edge detector -/

/-- A value of the C type `double` as far as comparisons see it: not a
number, an infinity, or a finite value named by the rational it stands for. -/
inductive Double where
  | nan
  | negInf
  | finite (q : ℚ)
  | posInf
  deriving DecidableEq

/-- The comparison `a < b` of two doubles; false when either is not a number. -/
def Double.lt : Double → Double → Bool
  | .nan, _ => false
  | _, .nan => false
  | _, .negInf => false
  | .negInf, _ => true
  | .posInf, _ => false
  | .finite _, .posInf => true
  | .finite a, .finite b => decide (a < b)

/-- The comparison `a > b` of two doubles. -/
def Double.gt (a b : Double) : Bool := Double.lt b a

/-- The constant `-0.2` of the source: the double nearest to -1/5, which is
-3602879701896397 / 2^54. -/
def cassette_threshold : Double := Double.finite (-(3602879701896397 / 18014398509481984))

/-- The two statics the cassette timer callback works on. -/
structure CassetteState where
  old_cassette_val : Double
  cassette_data : Nat

/-- The test `old_cassette_val > -0.2 && new_val < -0.2` of the callback. -/
def hi_lo_transition (old_val new_val : Double) : Bool :=
  Double.gt old_val cassette_threshold && Double.lt new_val cassette_threshold

/-- The callback `TIMER_CALLBACK( cassette_data_callback )`; `new_val` is what
`cassette_input(trs80_cass)` returns. `cassette_data` is a UINT8. -/
def cassette_data_callback (s : CassetteState) (new_val : Double) : CassetteState :=
  let cassette_data :=
    if hi_lo_transition s.old_cassette_val new_val then (s.cassette_data ||| 0x80) % 256
    else s.cassette_data
  { old_cassette_val := new_val, cassette_data := cassette_data }

/-! ### CMD quickload -/

/-- The locals of `QUICKLOAD_LOAD( trs80_cmd )` and the calls of
`memory_write_byte(space, address, data)` made so far, newest first. -/
structure CmdState where
  quickload_size : Nat
  offs : Nat
  entry : Nat
  block_ofs : Nat
  block_len : Nat
  writes : List (Nat × Nat)
  deriving DecidableEq, Repr

/-- The byte `cmd_buff[i]` (a UINT8). -/
def rd (cmd_buff : List Nat) (i : Nat) : Nat := cmd_buff.getD i 0 % 256

/-- The UINT16 `block_len` of a load block computed from its length byte:
`if (block_len == 0) block_len += 256; block_len -= 2;`
`if (block_len == 0) block_len = 256;` -/
def load_block_len (length_byte : Nat) : Nat :=
  let block_len := length_byte
  let block_len := if block_len = 0 then (block_len + 256) % 65536 else block_len
  let block_len := (block_len + 65536 - 2) % 65536
  if block_len = 0 then 256 else block_len

/-- The loop `while (block_len && quickload_size)` of a load block; the
UINT16 `block_ofs` wraps at 0x10000. -/
def copy_block (cmd_buff : List Nat) (entry : Nat) :
    (block_len quickload_size offs block_ofs : Nat) → List (Nat × Nat) → CmdState
  | 0, quickload_size, offs, block_ofs, writes =>
    ⟨quickload_size, offs, entry, block_ofs, 0, writes⟩
  | block_len + 1, 0, offs, block_ofs, writes =>
    ⟨0, offs, entry, block_ofs, block_len + 1, writes⟩
  | block_len + 1, quickload_size + 1, offs, block_ofs, writes =>
    copy_block cmd_buff entry block_len quickload_size (offs + 1) ((block_ofs + 1) % 65536)
      ((block_ofs, rd cmd_buff offs) :: writes)

/-- One pass through the body of `while (quickload_size > 3)`. -/
def cmd_step (cmd_buff : List Nat) (st : CmdState) : CmdState :=
  let data := rd cmd_buff st.offs
  let offs := st.offs + 1
  if data = 0x01 ∨ data = 0x07 then
    let block_len := load_block_len (rd cmd_buff offs)
    let block_ofs := (rd cmd_buff (offs + 1) + 256 * rd cmd_buff (offs + 2)) % 65536
    copy_block cmd_buff st.entry block_len (st.quickload_size - 4) (offs + 3) block_ofs st.writes
  else if data = 0x02 then
    let block_len := rd cmd_buff offs
    let entry :=
      if st.entry = 0 then (rd cmd_buff (offs + 1) + 256 * rd cmd_buff (offs + 2)) % 65536
      else st.entry
    { st with quickload_size := st.quickload_size - 1 - 3, offs := offs + 3, entry := entry,
              block_len := block_len }
  else
    { st with quickload_size := st.quickload_size - 1, offs := offs }

/-- The loop `while (quickload_size > 3)`, at most `fuel` passes. -/
def cmd_loop (cmd_buff : List Nat) : Nat → CmdState → Option CmdState
  | 0, _ => none
  | fuel + 1, st =>
    if st.quickload_size > 3 then cmd_loop cmd_buff fuel (cmd_step cmd_buff st) else some st

/-- What `trs80_cmd` hands to the host: the value given to
`cpu_set_reg(..., Z80_PC, entry)` and the memory writes, oldest first. -/
structure CmdResult where
  pc : Nat
  writes : List (Nat × Nat)
  deriving DecidableEq, Repr

/-- The loader `QUICKLOAD_LOAD( trs80_cmd )` when `malloc` succeeds, as a function of the
bytes in `cmd_buff` (which the source parses as the image) and of
`quickload_size`. The result is `INIT_PASS` with the given PC and writes. -/
def trs80_cmd (cmd_buff : List Nat) (quickload_size : Nat) : Option CmdResult :=
  (cmd_loop cmd_buff (quickload_size + 1) ⟨quickload_size, 0, 0, 0, 0, []⟩).map
    fun st => ⟨st.entry, st.writes.reverse⟩

/-! ### Floppy geometry and directory marking -/

/-- The byte `pdrive[i]`. -/
def pd (pdrive : List Nat) (i : Nat) : Nat := pdrive.getD i 0 % 256

/-- The value `tracks = pdrive[id*16+3] + 1`. -/
def tracks (pdrive : List Nat) (id : Nat) : Nat := pd pdrive (id * 16 + 3) + 1

/-- The value `heads = (pdrive[id*16+7] & 0x40) ? 2 : 1`. -/
def heads (pdrive : List Nat) (id : Nat) : Nat :=
  if pd pdrive (id * 16 + 7) &&& 0x40 ≠ 0 then 2 else 1

/-- The value `spt = pdrive[id*16+4] / heads`. -/
def spt (pdrive : List Nat) (id : Nat) : Nat := pd pdrive (id * 16 + 4) / heads pdrive id

/-- The value `dir_sector = 5 * pdrive[id*16+0] * pdrive[id*16+5]`. -/
def dir_sector (pdrive : List Nat) (id : Nat) : Nat :=
  5 * pd pdrive (id * 16 + 0) * pd pdrive (id * 16 + 5)

/-- The value `dir_length = 5 * pdrive[id*16+9]`. -/
def dir_length (pdrive : List Nat) (id : Nat) : Nat := 5 * pd pdrive (id * 16 + 9)

/-- The body of the directory loop for index `i`: the `(track, side,
sector_id)` passed to `basicdsk_set_ddam`. -/
def ddam_sector (heads spt dir_sector i : Nat) : Nat × Nat × Nat :=
  let sector_offset := dir_sector + i
  let track_offset := sector_offset / spt
  let track := track_offset / heads
  let side := track_offset % heads
  let sector_id := sector_offset % spt
  (track, side, sector_id)

/-- The loop `for (i = 0; i < dir_length; i++)`: the calls of
`basicdsk_set_ddam` in order; no result when a pass would divide by zero. -/
def mark_directory (heads spt dir_sector dir_length : Nat) : Option (List (Nat × Nat × Nat)) :=
  if 0 < dir_length ∧ (spt = 0 ∨ heads = 0) then none
  else some ((List.range dir_length).map (ddam_sector heads spt dir_sector))

/-- The loader `DEVICE_IMAGE_LOAD( trs80_floppy )` after the image is loaded and
`pdrive` is filled: the geometry `(tracks, heads, spt)` given to
`basicdsk_set_geometry` and the sectors marked. -/
def trs80_floppy (pdrive : List Nat) (id : Nat) :
    Option ((Nat × Nat × Nat) × List (Nat × Nat × Nat)) :=
  (mark_directory (heads pdrive id) (spt pdrive id) (dir_sector pdrive id)
      (dir_length pdrive id)).map
    fun marks => ((tracks pdrive id, heads pdrive id, spt pdrive id), marks)

/-! ### UART and keyboard -/

/-- The table `baud_clock` of `trs80m4_e9_w`. -/
def baud_clock : List Nat :=
  [800, 1200, 1600, 2152, 2400, 4800, 9600, 19200, 28800, 32000, 38400, 57600, 76800, 115200,
    153600, 307200]

/-- The baud rates the comment of `trs80m4_e9_w` documents for the nibble
values 0..15. -/
def documented_baud : List ℚ :=
  [50, 75, 100, 134.5, 150, 300, 600, 1200, 1800, 2000, 2400, 3600, 4800, 7200, 9600, 19200]

/-- The handler `WRITE8_HANDLER( trs80m4_e9_w )` for the UINT8 `data`: the
values given to `ay31015_set_receiver_clock` and to
`ay31015_set_transmitter_clock`; no result if an index falls outside the
table. -/
def trs80m4_e9_w (data : Nat) : Option (Nat × Nat) :=
  let data := data % 256
  match baud_clock[data &&& 0x0f]?, baud_clock[data >>> 4]? with
  | some rx, some tx => some (rx, tx)
  | _, _ => none

/-- The output pins of the AY-3-1015 read by `sys80_f9_r`, as
`ay31015_get_output_pin` returns them (nonzero is high). -/
structure UartPins where
  TBMT : Nat
  DAV : Nat
  OR : Nat
  FE : Nat
  PE : Nat
  deriving DecidableEq, Repr

/-- The handler `READ8_HANDLER( sys80_f9_r )`: the byte returned (the two
writes of pin SWE are left out). -/
def sys80_f9_r (pins : UartPins) : Nat :=
  let data := 70
  let data := data ||| (if pins.TBMT ≠ 0 then 0 else 0x80)
  let data := data ||| (if pins.DAV ≠ 0 then 0x01 else 0)
  let data := data ||| (if pins.OR ≠ 0 then 0x02 else 0)
  let data := data ||| (if pins.FE ≠ 0 then 0x04 else 0)
  let data := data ||| (if pins.PE ≠ 0 then 0x08 else 0)
  data % 256

/-- The handler `READ8_HANDLER( trs80_keyboard_r )`; `LINE k` is what
`input_port_read(machine, "LINEk")` returns, and the `int` result is returned
as a UINT8. -/
def trs80_keyboard_r (LINE : Nat → Nat) (offset : Nat) : Nat :=
  let result := 0
  let result := if offset &&& 1 ≠ 0 then result ||| LINE 0 else result
  let result := if offset &&& 2 ≠ 0 then result ||| LINE 1 else result
  let result := if offset &&& 4 ≠ 0 then result ||| LINE 2 else result
  let result := if offset &&& 8 ≠ 0 then result ||| LINE 3 else result
  let result := if offset &&& 16 ≠ 0 then result ||| LINE 4 else result
  let result := if offset &&& 32 ≠ 0 then result ||| LINE 5 else result
  let result := if offset &&& 64 ≠ 0 then result ||| LINE 6 else result
  let result := if offset &&& 128 ≠ 0 then result ||| LINE 7 else result
  result % 256

/-- The bitwise OR of `LINE k` over the `k` in 0..7 with bit `k` of `offset`
set. -/
def selected_lines (LINE : Nat → Nat) (offset : Nat) : Nat :=
  (List.range 8).foldl (fun acc k => if offset.testBit k then acc ||| LINE k else acc) 0

end TRS80

/-! ## Acorn Atom (`mess/drivers/atom.c`) -/

namespace Atom

/-- An entry of `atom_cart_table`. -/
structure atom_cart_range where
  tag : String
  offset : Nat
  region : String
  deriving DecidableEq, Repr

/-- The table `atom_cart_table`, without its terminator. -/
def atom_cart_table : List atom_cart_range :=
  [ ⟨"cart", 0x0000, "a000"⟩,
    ⟨"a0", 0x0000, "a000"⟩,
    ⟨"a1", 0x1000, "a000"⟩,
    ⟨"a2", 0x2000, "a000"⟩,
    ⟨"a3", 0x3000, "a000"⟩,
    ⟨"a4", 0x4000, "a000"⟩,
    ⟨"a5", 0x5000, "a000"⟩,
    ⟨"a6", 0x6000, "a000"⟩,
    ⟨"a7", 0x7000, "a000"⟩,
    ⟨"a8", 0x8000, "a000"⟩,
    ⟨"a9", 0x9000, "a000"⟩,
    ⟨"aa", 0xa000, "a000"⟩,
    ⟨"ab", 0xb000, "a000"⟩,
    ⟨"ac", 0xc000, "a000"⟩,
    ⟨"ad", 0xd000, "a000"⟩,
    ⟨"ae", 0xe000, "a000"⟩,
    ⟨"af", 0xf000, "a000"⟩,
    ⟨"e0", 0x0000, "e000"⟩,
    ⟨"e1", 0x1000, "e000"⟩ ]

/-- Result code of an image load. -/
inductive image_init_result where
  | IMAGE_INIT_PASS
  | IMAGE_INIT_FAIL
  deriving DecidableEq, Repr

/-- The image handed to the loader: a raw file with its `image.length()` and
the bytes `image.fread` can deliver, or a software-list entry with its "rom"
region. -/
inductive Image where
  | raw (length : Nat) (readable : List Nat)
  | software (rom : List Nat)
  deriving DecidableEq, Repr

/-- The memory regions of the machine: region tag, then byte offset. -/
abbrev Regions := String → Nat → Nat

/-- What a load leaves behind: the result code, the error set with
`image.seterror` if any, and the memory regions. -/
structure LoadOutcome where
  result : image_init_result
  error : Option String
  regions : Regions

/-- The copy `memcpy(memory_region(machine, region) + pos, src, n)`. -/
def memcpy_region (regions : Regions) (region : String) (pos : Nat) (src : List Nat) (n : Nat) :
    Regions :=
  fun r a => if r = region ∧ pos ≤ a ∧ a < pos + n then src.getD (a - pos) 0 else regions r a

/-- The loop `while (atom_cart->tag)`: the first entry whose tag is the
device tag; no entry when the loop stops at the terminator. -/
def find_cart (tag : String) : Option atom_cart_range :=
  atom_cart_table.find? fun c => c.tag == tag

/-- The tail of `atom_cart` from `mirror = 0x1000 / size` on. There is no
outcome when `size` is 0 (division by zero) or when the tag is not in the
table (the region tag is then a null pointer). -/
def mirror_cart (this_cart : Option atom_cart_range) (temp_copy : List Nat) (size : Nat)
    (regions : Regions) : Option LoadOutcome :=
  if size = 0 then none
  else
    let mirror := 0x1000 / size
    match this_cart with
    | none => if mirror = 0 then some ⟨.IMAGE_INIT_PASS, none, regions⟩ else none
    | some c =>
      some ⟨.IMAGE_INIT_PASS, none,
        (List.range mirror).foldl
          (fun regs i => memcpy_region regs c.region (c.offset + i * size) temp_copy size)
          regions⟩

/-- The loader `DEVICE_IMAGE_LOAD( atom_cart )` for the device with the given tag. -/
def atom_cart (tag : String) (image : Image) (regions : Regions) : Option LoadOutcome :=
  let this_cart := find_cart tag
  match image with
  | .raw length readable =>
    let size := length
    if size > 0x1000 then
      some ⟨.IMAGE_INIT_FAIL, some "Unsupported cartridge size", regions⟩
    else if min size readable.length ≠ size then
      some ⟨.IMAGE_INIT_FAIL, some "Unable to fully read from file", regions⟩
    else mirror_cart this_cart (readable.take size) size regions
  | .software rom => mirror_cart this_cart rom rom.length regions

/-- The fields of `atom_state` used by the handlers below. -/
structure atom_state where
  eprom : Nat
  keylatch : Nat
  deriving DecidableEq, Repr

/-- A ROM window installed with `memory_install_rom(program, start, stop, 0,
0, memory_region(machine, region) + offset)`. -/
structure RomWindow where
  start : Nat
  stop : Nat
  region : String
  offset : Nat
  deriving DecidableEq, Repr

/-- The function `bankswitch`: the window it installs at 0xa000-0xafff. -/
def bankswitch (s : atom_state) : RomWindow :=
  ⟨0xa000, 0xafff, "a000", s.eprom <<< 12⟩

/-- The handler `READ8_HANDLER( eprom_r )`. -/
def eprom_r (s : atom_state) : Nat := s.eprom

/-- The handler `WRITE8_HANDLER( eprom_w )`: the new state and the window
installed by `bankswitch`. -/
def eprom_w (s : atom_state) (data : Nat) : atom_state × RomWindow :=
  let s1 := { s with eprom := data &&& 0x0f }
  (s1, bankswitch s1)

/-- The regions of `ROM_START( atomeb )` with their sizes; the first is named
by the macro `SY6502_TAG`, written here as its name. -/
def atomeb_regions : List (String × Nat) :=
  [("SY6502_TAG", 0x4000), ("a000", 0x10000), ("e000", 0x2000)]

/-- The tag of cartridge slot a0 .. af for `n` in 0..15: the letter a
followed by the hexadecimal digit of `n`. -/
def slot_tag (n : Nat) : String :=
  "a" ++ (["0", "1", "2", "3", "4", "5", "6", "7", "8", "9", "a", "b", "c", "d", "e", "f"].getD n "")

/-- The handler `WRITE8_DEVICE_HANDLER( ppi_pa_w )`: the new state and the
levels given to `mc6847_ag_w`, `mc6847_gm0_w`, `mc6847_gm1_w` and
`mc6847_gm2_w`, with `BIT(data, n)` read as bit `n` of `data`. -/
def ppi_pa_w (s : atom_state) (data : Nat) : atom_state × (Nat × Nat × Nat × Nat) :=
  ({ s with keylatch := data &&& 0x0f },
    ((data >>> 4) &&& 1, (data >>> 5) &&& 1, (data >>> 6) &&& 1, (data >>> 7) &&& 1))

/-- The handler `READ8_DEVICE_HANDLER( ppi_pb_r )`; `KEY n` is what
`input_port_read(machine, "KEYn")` returns. -/
def ppi_pb_r (s : atom_state) (KEY : Nat → Nat) : Nat :=
  let data := 0xff
  let data :=
    match s.keylatch with
    | 0 => data &&& KEY 0
    | 1 => data &&& KEY 1
    | 2 => data &&& KEY 2
    | 3 => data &&& KEY 3
    | 4 => data &&& KEY 4
    | 5 => data &&& KEY 5
    | 6 => data &&& KEY 6
    | 7 => data &&& KEY 7
    | 8 => data &&& KEY 8
    | 9 => data &&& KEY 9
    | _ => data
  data &&& KEY 10

/-- The function `atom_8271_interrupt_callback` on the static
`previous_i8271_int_state`: whether the NMI line is pulsed, and the new value
of the static. -/
def atom_8271_interrupt_callback (previous_i8271_int_state state : Int) : Bool × Int :=
  (decide (state ≠ previous_i8271_int_state) && decide (state ≠ 0), state)

/-- The calls of `atom_8271_interrupt_callback` for a sequence of states,
oldest first: the NMI pulse of each call and the final value of the static. -/
def fdc_interrupts : Int → List Int → List Bool × Int
  | previous, [] => ([], previous)
  | previous, state :: rest =>
    let r := atom_8271_interrupt_callback previous state
    let t := fdc_interrupts r.2 rest
    (r.1 :: t.1, t.2)

end Atom

/-! ## Macintosh sound (`mess/audio/mac.c`) -/

namespace Mac

/-- The constant `MAC_SND_BUF_SIZE`. -/
def MAC_SND_BUF_SIZE : Nat := 370

/-- The constant `SND_CACHE_SIZE`. -/
def SND_CACHE_SIZE : Nat := 128

/-- The fields of `struct _mac_sound` the buffer code works on. -/
structure mac_sound where
  sample_enable : Int
  snd_cache : List Nat
  snd_cache_len : Nat
  snd_cache_head : Nat
  snd_cache_tail : Nat
  indexx : Int
  deriving DecidableEq, Repr

/-- The state `DEVICE_START(mac_sound)` leaves: all fields zero and a cache
of `SND_CACHE_SIZE` bytes. -/
def DEVICE_START : mac_sound :=
  ⟨0, List.replicate SND_CACHE_SIZE 0, 0, 0, 0, 0⟩

/-- The first loop of `mac_sound_update`, `while (samples &&
token->snd_cache_len)`, as far as the cache is concerned. -/
def drain_cache : Nat → mac_sound → mac_sound
  | 0, t => t
  | samples + 1, t =>
    if t.snd_cache_len = 0 then t
    else
      drain_cache samples
        { t with snd_cache_head := (t.snd_cache_head + 1) % SND_CACHE_SIZE,
                 snd_cache_len := t.snd_cache_len - 1 }

/-- The call `stream_update(token->mac_stream)`: the host runs
`mac_sound_update` for the `samples` that are due, which leaves the cache
alone when `sample_rate` is 0. -/
def stream_update (sample_rate samples : Nat) (t : mac_sound) : mac_sound :=
  if sample_rate = 0 then t else drain_cache samples t

/-- The function `mac_sh_updatebuffer`; `base i` is the UINT16 word
`base[i]` of the current sound buffer, and `sample_rate`, `samples` say what
a `stream_update` would do. The remainder `%` of C truncates toward zero. -/
def mac_sh_updatebuffer (base : Int → Nat) (sample_rate samples : Nat) (t : mac_sound) :
    mac_sound :=
  let t := { t with indexx := t.indexx + 1 }
  let t := { t with indexx := Int.tmod t.indexx 370 }
  let t := if t.snd_cache_len ≥ SND_CACHE_SIZE then stream_update sample_rate samples t else t
  if t.snd_cache_len ≥ SND_CACHE_SIZE then t
  else
    let byte := if t.sample_enable ≠ 0 then ((base t.indexx % 65536) >>> 8) &&& 0xff else 0
    { t with snd_cache := t.snd_cache.set t.snd_cache_tail byte,
             snd_cache_tail := (t.snd_cache_tail + 1) % SND_CACHE_SIZE,
             snd_cache_len := t.snd_cache_len + 1 }

/-- The state after `n` calls of `mac_sh_updatebuffer`, each with the same
buffer and host parameters. -/
def after_calls (base : Int → Nat) (sample_rate samples : Nat) (t : mac_sound) : Nat → mac_sound
  | 0 => t
  | n + 1 => mac_sh_updatebuffer base sample_rate samples (after_calls base sample_rate samples t n)

end Mac

/-! # Theorems -/

namespace Jedi

/-! ### Bit 5 of a C `int` -/

theorem land32_nat (n : Nat) : (n &&& 32 ≠ 0) ↔ n.testBit 5 = true := by
  have h32 : (32 : Nat) = 2 ^ 5 := by norm_num
  constructor
  · intro h
    by_contra hb
    apply h
    apply Nat.eq_of_testBit_eq
    intro i
    simp only [Nat.testBit_and, Nat.zero_testBit]
    rw [h32, Nat.testBit_two_pow]
    by_cases hi : 5 = i
    · subst hi; simp at hb; simp [hb]
    · simp [hi]
  · intro hb h
    have := congrArg (fun x => Nat.testBit x 5) h
    simp only [Nat.testBit_and, Nat.zero_testBit, hb] at this
    revert this
    decide

theorem ldiff32_nat (n : Nat) : (Nat.ldiff 32 n ≠ 0) ↔ n.testBit 5 = false := by
  have h32 : (32 : Nat) = 2 ^ 5 := by norm_num
  constructor
  · intro h
    by_contra hb
    apply h
    apply Nat.eq_of_testBit_eq
    intro i
    simp only [Nat.testBit_ldiff, Nat.zero_testBit]
    rw [h32, Nat.testBit_two_pow]
    by_cases hi : 5 = i
    · subst hi; simp at hb; simp [hb]
    · simp [hi]
  · intro hb h
    have := congrArg (fun x => Nat.testBit x 5) h
    simp only [Nat.testBit_ldiff, Nat.zero_testBit, hb] at this
    revert this
    decide

theorem land32_int (s : Int) : (Int.land s 32 ≠ 0) ↔ s.testBit 5 = true := by
  cases s with
  | ofNat n =>
    show ((Nat.land n 32 : Nat) : Int) ≠ 0 ↔ Nat.testBit n 5 = true
    rw [← land32_nat]
    simp
    rfl
  | negSucc n =>
    show ((Nat.ldiff 32 n : Nat) : Int) ≠ 0 ↔ (!(Nat.testBit n 5)) = true
    rw [Bool.not_eq_true', ← ldiff32_nat]
    simp

theorem irq_level_eq (s : Int) :
    irq_level s = if s.testBit 5 then LineState.CLEAR_LINE else LineState.ASSERT_LINE := by
  unfold irq_level
  by_cases h : s.testBit 5 = true
  · rw [if_pos ((land32_int s).2 h), if_pos h]
  · rw [if_neg (fun hc => h ((land32_int s).1 hc)), if_neg h]

/-! ### The interrupt timer -/

theorem scheduled_eq (n : Nat) : scheduled n = 32 * (((n % 8 : Nat) : Int) + 1) := by
  induction n with
  | zero => rfl
  | succ n ih =>
    simp only [scheduled, generate_interrupt, next_scanline, ih]
    split <;> omega

/-! ### NVRAM -/

theorem nvram_enable_val (o : Nat) :
    ((0xFFFFFFFF - o % 2 ^ 32) &&& 1) = if o % 2 = 0 then 1 else 0 := by
  rw [Nat.and_one_is_mod]
  split <;> omega

theorem write_nvram_length (s : jedi_state) (w : MainWrite) :
    (write s w).m_nvram.length = s.m_nvram.length := by
  cases w <;> simp [write, nvram_data_w, nvram_enable_w, a2d_select_w, rom_banksel_w]
  · split <;> simp
  · split <;> split <;> split <;> rfl

theorem run_nvram_length (s : jedi_state) (ws : List MainWrite) :
    (run s ws).m_nvram.length = s.m_nvram.length := by
  induction ws generalizing s with
  | nil => rfl
  | cons w ws ih => simp only [run, List.foldl_cons] at ih ⊢; rw [ih, write_nvram_length]

theorem write_nvram_enabled (s : jedi_state) (w : MainWrite) :
    (write s w).nvram_enabled =
      match w with
      | .nvram_enable o _ => if o % 2 = 0 then 1 else 0
      | _ => s.nvram_enabled := by
  cases w <;> simp only [write, nvram_data_w, nvram_enable_w, a2d_select_w, rom_banksel_w]
  · split <;> rfl
  · exact nvram_enable_val _
  · split <;> split <;> split <;> rfl

theorem run_nvram_enabled (ws : List MainWrite) (s : jedi_state) :
    (run s ws).nvram_enabled =
      match lastEnable ws with
      | some o => if o % 2 = 0 then 1 else 0
      | none => s.nvram_enabled := by
  induction ws generalizing s with
  | nil => rfl
  | cons w ws ih =>
    have h : run s (w :: ws) = run (write s w) ws := rfl
    rw [h, ih, write_nvram_enabled]
    simp only [lastEnable]
    cases lastEnable ws with
    | some o => rfl
    | none => cases w <;> rfl

theorem run_reset_enabled (ws : List MainWrite) (s0 : jedi_state) :
    (run (MACHINE_RESET s0) ws).nvram_enabled = if nvramOpen ws then 1 else 0 := by
  rw [run_nvram_enabled]
  unfold nvramOpen
  cases lastEnable ws with
  | none => rfl
  | some o => by_cases h : o % 2 = 0 <;> simp [h]

/-- C1: after MACHINE_RESET and any sequence of main CPU writes, a data write
`nvram_data_w(offset, data)` stores `data` in cell `offset` and leaves every
other cell alone exactly when the most recent `nvram_enable_w` write went to
an even offset; with no enable write since reset, or the most recent one to
an odd offset, the state is unchanged; the data byte of an enable write never
matters. -/
theorem nvram_write_gating (s0 : jedi_state) (ws : List MainWrite) (offset data : Nat)
    (h : offset < s0.m_nvram.length) :
    (nvram_data_w (run (MACHINE_RESET s0) ws) offset data =
        if nvramOpen ws then
          { run (MACHINE_RESET s0) ws with
            m_nvram := (run (MACHINE_RESET s0) ws).m_nvram.set offset data }
        else run (MACHINE_RESET s0) ws) ∧
    (∀ j, (nvram_data_w (run (MACHINE_RESET s0) ws) offset data).m_nvram[j]? =
        if nvramOpen ws = true ∧ j = offset then some data
        else (run (MACHINE_RESET s0) ws).m_nvram[j]?) ∧
    (∀ s o d d', nvram_enable_w s o d = nvram_enable_w s o d') := by
  have hlen : offset < (run (MACHINE_RESET s0) ws).m_nvram.length := by
    rw [run_nvram_length]; exact h
  have hen := run_reset_enabled ws s0
  refine ⟨?_, ?_, fun _ _ _ _ => rfl⟩
  · unfold nvram_data_w
    cases hopen : nvramOpen ws <;> rw [hopen] at hen <;> simp [hen]
  · intro j
    unfold nvram_data_w
    cases hopen : nvramOpen ws <;> rw [hopen] at hen
    · simp [hen]
    · by_cases hj : j = offset
      · subst hj
        simp [hen, hlen]
      · have hj' : offset ≠ j := fun e => hj e.symm
        simp [hen, hj, List.getElem?_set_ne hj']

/-- C1 witness: after `nvram_enable_w(0, 0x55)`, writing 7 at offset 2 of a
four-cell NVRAM. -/
theorem nvram_write_gating_witness :
    2 < (jedi_state.mk 0 0 [1, 2, 3, 4] 0).m_nvram.length ∧
    (nvram_data_w (run (MACHINE_RESET (jedi_state.mk 0 0 [1, 2, 3, 4] 0))
        [MainWrite.nvram_enable 0 0x55]) 2 7).m_nvram = [1, 2, 7, 4] := by
  refine ⟨by decide, ?_⟩
  rw [(nvram_write_gating (jedi_state.mk 0 0 [1, 2, 3, 4] 0)
    [MainWrite.nvram_enable 0 0x55] 2 7 (by decide)).1]
  decide

/-- C2: the parameter of the n-th `generate_interrupt` callback after
MACHINE_START is 32 * (n mod 8 + 1): a multiple of 32 in [32, 256], running
32, 64, ..., 256 and wrapping to 32 with period 8, never above 256. -/
theorem scanline_schedule (n : Nat) :
    scheduled n = 32 * (((n % 8 : Nat) : Int) + 1) ∧
    scheduled n % 32 = 0 ∧ 32 ≤ scheduled n ∧ scheduled n ≤ 256 ∧
    scheduled (n + 8) = scheduled n ∧
    scheduled (n + 1) = if scheduled n = 256 then 32 else scheduled n + 32 := by
  have h0 := scheduled_eq n
  have h8 := scheduled_eq (n + 8)
  have h1 := scheduled_eq (n + 1)
  refine ⟨h0, by omega, by omega, by omega, by omega, ?_⟩
  split <;> omega

/-- C3: for every scanline parameter `generate_interrupt` drives both IRQ
lines to the same level, ASSERT when bit 5 of the scanline is clear and CLEAR
when it is set; along the scheduled sequence the level is CLEAR on the even
callbacks and ASSERT on the odd ones, so it alternates on every callback,
also across the wrap from 256 to 32. -/
theorem irq_generated_by_32V (scanline : Int) (n : Nat) :
    (generate_interrupt scanline).1.maincpu = (generate_interrupt scanline).1.audiocpu ∧
    (generate_interrupt scanline).1.maincpu =
      (if scanline.testBit 5 then LineState.CLEAR_LINE else LineState.ASSERT_LINE) ∧
    (generate_interrupt (scheduled n)).1.maincpu =
      (if n % 2 = 0 then LineState.CLEAR_LINE else LineState.ASSERT_LINE) ∧
    (generate_interrupt (scheduled (n + 1))).1.maincpu ≠
      (generate_interrupt (scheduled n)).1.maincpu := by
  have key : ∀ m : Nat, irq_level (scheduled m) =
      if m % 2 = 0 then LineState.CLEAR_LINE else LineState.ASSERT_LINE := by
    intro m
    rw [scheduled_eq]
    have hm : m % 8 < 8 := Nat.mod_lt _ (by norm_num)
    have h2 : m % 2 = (m % 8) % 2 := by omega
    rw [h2]
    generalize m % 8 = r at hm
    interval_cases r <;> decide
  refine ⟨rfl, irq_level_eq scanline, key n, ?_⟩
  show irq_level (scheduled (n + 1)) ≠ irq_level (scheduled n)
  rw [key, key]
  rcases Nat.mod_two_eq_zero_or_one n with h | h
  · have h' : (n + 1) % 2 = 1 := by omega
    simp [h, h']
  · have h' : (n + 1) % 2 = 0 := by omega
    simp [h, h']

/-- C4: after a write to 0x1C80 (`a2d_select_w` with offset 0, documented as
"Start A/D conversion (horizontal)") `a2d_data_r` returns port STICKY, the
vertical axis, not STICKX; here with STICKX = 0x10 and STICKY = 0xF0, and
after a write to 0x1C82 (offset 2, "vertical") it returns STICKX. -/
theorem a2d_select_axes_swapped :
    a2d_data_r (a2d_select_w (MACHINE_RESET (jedi_state.mk 2 0 [] 0)) 0 0)
        (StickPorts.mk 0xF0 0x10) = 0xF0 ∧
    a2d_data_r (a2d_select_w (MACHINE_RESET (jedi_state.mk 2 0 [] 0)) 2 0)
        (StickPorts.mk 0xF0 0x10) = 0x10 ∧
    (∀ (s : jedi_state) (d : Nat) (ports : StickPorts),
      a2d_data_r (a2d_select_w s 0 d) ports = ports.STICKY ∧
      a2d_data_r (a2d_select_w s 2 d) ports = ports.STICKX) := by
  refine ⟨by decide, by decide, fun s d ports => ⟨rfl, rfl⟩⟩

end Jedi

namespace TRS80

/-! ### Cassette edge detector -/

theorem or_0x80_bits (d i : Nat) :
    ((d ||| 0x80) % 256).testBit i = (decide (i = 7) || (decide (i < 8) && d.testBit i)) := by
  have h256 : (256 : Nat) = 2 ^ 8 := by norm_num
  have h128 : (0x80 : Nat) = 2 ^ 7 := by norm_num
  rw [h256, Nat.testBit_mod_two_pow, Nat.testBit_or, h128, Nat.testBit_two_pow]
  by_cases h7 : 7 = i
  · subst h7; simp
  · have h7' : ¬ i = 7 := fun e => h7 e.symm
    simp [h7, h7']

theorem hi_lo_finite (a b : ℚ) :
    hi_lo_transition (.finite a) (.finite b) =
      decide (a > -(3602879701896397 / 18014398509481984) ∧
              b < -(3602879701896397 / 18014398509481984)) := by
  simp [hi_lo_transition, Double.gt, Double.lt, cassette_threshold]

theorem hi_lo_threshold (x : Double) :
    hi_lo_transition cassette_threshold x = false ∧
    hi_lo_transition x cassette_threshold = false := by
  constructor
  · simp [hi_lo_transition, Double.gt, Double.lt, cassette_threshold]
  · cases x <;> simp [hi_lo_transition, Double.gt, Double.lt, cassette_threshold]

theorem hi_lo_nan (x : Double) :
    hi_lo_transition .nan x = false ∧ hi_lo_transition x .nan = false := by
  constructor
  · simp [hi_lo_transition, Double.gt, Double.lt, cassette_threshold]
  · cases x <;> simp [hi_lo_transition, Double.gt, Double.lt, cassette_threshold]

/-! ### Directory marking -/

theorem ddam_sector_spec (hd sp ds i : Nat) (hh : 0 < hd) (hs : 0 < sp) :
    (ddam_sector hd sp ds i).2.1 < hd ∧ (ddam_sector hd sp ds i).2.2 < sp ∧
    ((ddam_sector hd sp ds i).1 * hd + (ddam_sector hd sp ds i).2.1) * sp
      + (ddam_sector hd sp ds i).2.2 = ds + i := by
  simp only [ddam_sector]
  refine ⟨Nat.mod_lt _ hh, Nat.mod_lt _ hs, ?_⟩
  rw [Nat.div_add_mod' ((ds + i) / sp) hd, Nat.div_add_mod' (ds + i) sp]

theorem ddam_sector_unique (hd sp ds i t sd sec : Nat)
    (h1 : sd < hd) (h2 : sec < sp) (h3 : (t * hd + sd) * sp + sec = ds + i) :
    (t, sd, sec) = ddam_sector hd sp ds i := by
  simp only [ddam_sector]
  rw [← h3]
  have hsp : 0 < sp := by omega
  have hhd : 0 < hd := by omega
  have e1 : ((t * hd + sd) * sp + sec) / sp = t * hd + sd := by
    rw [Nat.add_comm, Nat.add_mul_div_right _ _ hsp, Nat.div_eq_of_lt h2, Nat.zero_add]
  have e2 : ((t * hd + sd) * sp + sec) % sp = sec := by
    rw [Nat.add_comm, Nat.add_mul_mod_self_right, Nat.mod_eq_of_lt h2]
  have e3 : (t * hd + sd) / hd = t := by
    rw [Nat.add_comm, Nat.add_mul_div_right _ _ hhd, Nat.div_eq_of_lt h1, Nat.zero_add]
  have e4 : (t * hd + sd) % hd = sd := by
    rw [Nat.add_comm, Nat.add_mul_mod_self_right, Nat.mod_eq_of_lt h1]
  rw [e1, e2, e3, e4]

theorem ddam_sector_injective (hd sp ds : Nat) (hh : 0 < hd) (hs : 0 < sp) :
    Function.Injective (ddam_sector hd sp ds) := by
  intro i j hij
  have hi := (ddam_sector_spec hd sp ds i hh hs).2.2
  have hj := (ddam_sector_spec hd sp ds j hh hs).2.2
  rw [hij] at hi
  omega

theorem heads_cases (pdrive : List Nat) (id : Nat) :
    heads pdrive id = 1 ∨ heads pdrive id = 2 := by
  unfold heads
  split
  · right; rfl
  · left; rfl


/-! ### CMD quickload -/

theorem copy_block_size (cmd_buff : List Nat) (entry : Nat) (block_len : Nat) :
    ∀ (quickload_size offs block_ofs : Nat) (writes : List (Nat × Nat)),
      (copy_block cmd_buff entry block_len quickload_size offs block_ofs writes).quickload_size
        ≤ quickload_size := by
  induction block_len with
  | zero => intro q o b w; simp [copy_block]
  | succ n ih =>
    intro q o b w
    cases q with
    | zero => simp [copy_block]
    | succ q =>
      simp only [copy_block]
      exact Nat.le_succ_of_le (ih q _ _ _)

theorem cmd_step_size (cmd_buff : List Nat) (st : CmdState) (h : st.quickload_size > 3) :
    (cmd_step cmd_buff st).quickload_size < st.quickload_size := by
  unfold cmd_step
  simp only []
  split
  · have := copy_block_size cmd_buff st.entry (load_block_len (rd cmd_buff (st.offs + 1)))
      (st.quickload_size - 4) (st.offs + 1 + 3)
      ((rd cmd_buff (st.offs + 1 + 1) + 256 * rd cmd_buff (st.offs + 1 + 2)) % 65536) st.writes
    omega
  · split
    · simp only []; omega
    · simp only []; omega

theorem cmd_loop_total (cmd_buff : List Nat) (fuel : Nat) :
    ∀ st : CmdState, st.quickload_size < fuel → ∃ r, cmd_loop cmd_buff fuel st = some r := by
  induction fuel with
  | zero => intro st h; omega
  | succ n ih =>
    intro st h
    unfold cmd_loop
    split
    · rename_i hgt
      apply ih
      have := cmd_step_size cmd_buff st hgt
      omega
    · exact ⟨st, rfl⟩

/-- The quickload always returns: the loop ends within the fuel given. -/
theorem trs80_cmd_total (cmd_buff : List Nat) (quickload_size : Nat) :
    ∃ r, trs80_cmd cmd_buff quickload_size = some r := by
  obtain ⟨st, h⟩ := cmd_loop_total cmd_buff (quickload_size + 1)
    ⟨quickload_size, 0, 0, 0, 0, []⟩ (Nat.lt_succ_self _)
  exact ⟨⟨st.entry, st.writes.reverse⟩, by simp [trs80_cmd, h]⟩

/-- C5: the cassette callback stores the new sample as the previous one in
all cases, and changes `cassette_data` if and only if the old sample is above
-0.2 and the new one below it: then bit 7 is set and bits 0..6 are kept;
otherwise (no crossing, a crossing the other way, a sample equal to -0.2, a
sample that is not a number) `cassette_data` is left as it was. -/
theorem cassette_edge_detector (s : CassetteState) (new_val : Double) (a b : ℚ) (i : Nat) :
    (cassette_data_callback s new_val).old_cassette_val = new_val ∧
    (cassette_data_callback s new_val).cassette_data =
      (if hi_lo_transition s.old_cassette_val new_val then (s.cassette_data ||| 0x80) % 256
       else s.cassette_data) ∧
    ((s.cassette_data ||| 0x80) % 256).testBit i =
      (decide (i = 7) || (decide (i < 8) && s.cassette_data.testBit i)) ∧
    hi_lo_transition (.finite a) (.finite b) =
      decide (a > -(3602879701896397 / 18014398509481984) ∧
              b < -(3602879701896397 / 18014398509481984)) ∧
    hi_lo_transition cassette_threshold new_val = false ∧
    hi_lo_transition s.old_cassette_val cassette_threshold = false ∧
    hi_lo_transition .nan new_val = false ∧
    hi_lo_transition s.old_cassette_val .nan = false :=
  ⟨rfl, rfl, or_0x80_bits _ _, hi_lo_finite a b, (hi_lo_threshold new_val).1,
    (hi_lo_threshold s.old_cassette_val).2, (hi_lo_nan new_val).1,
    (hi_lo_nan s.old_cassette_val).2⟩

set_option maxRecDepth 8000

/-- C8: a load block with length byte 1 gets `block_len` 65535, not a value
in 1..256: the file 01 01 00 50 followed by 257 data bytes has all 257 bytes
written to memory. Length byte 0 gives 254 data bytes, and every length byte
other than 1 gives between 1 and 256. -/
theorem cmd_length_byte_one_block :
    load_block_len 1 = 65535 ∧
    (trs80_cmd ([0x01, 0x01, 0x00, 0x50] ++ List.replicate 257 0xAA) 261).map
        (fun r => r.writes.length) = some 257 ∧
    load_block_len 0 = 254 ∧
    (List.range 256).all (fun b =>
      b == 1 || (decide (1 ≤ load_block_len b) && decide (load_block_len b ≤ 256))) = true := by
  refine ⟨by decide, by decide, by decide, by decide⟩

/-- C9: the file 02 02 00 00 02 02 34 12, whose first transfer record carries
address 0x0000 and whose second carries 0x1234, leaves the PC at 0x1234;
with a first address other than zero the second record is ignored, and a
file without a transfer record leaves the PC at 0. -/
theorem cmd_entry_zero_overridden :
    trs80_cmd [0x02, 0x02, 0x00, 0x00, 0x02, 0x02, 0x34, 0x12] 8 = some ⟨0x1234, []⟩ ∧
    trs80_cmd [0x02, 0x02, 0x00, 0x60, 0x02, 0x02, 0x34, 0x12] 8 = some ⟨0x6000, []⟩ ∧
    trs80_cmd [0x01, 0x03, 0x00, 0x50, 0xAA] 5 = some ⟨0, [(0x5000, 0xAA)]⟩ := by
  refine ⟨by decide, by decide, by decide⟩

/-- C10: for heads in {1, 2}, spt >= 1 and i < dir_length the directory loop
returns, marks exactly dir_length pairwise distinct sectors, and its i-th
call of `basicdsk_set_ddam` gets the unique (track, side, sector_id) with
side < heads, sector_id < spt and
(track * heads + side) * spt + sector_id = dir_sector + i; in `trs80_floppy`
heads is always 1 or 2 and the marks are those of this loop. -/
theorem directory_marking (hd sp ds dl i : Nat)
    (hh : hd = 1 ∨ hd = 2) (hs : 1 ≤ sp) (hi : i < dl) :
    (∃ marks, mark_directory hd sp ds dl = some marks ∧
      marks.length = dl ∧ marks.Nodup ∧
      marks[i]? = some (ddam_sector hd sp ds i)) ∧
    (ddam_sector hd sp ds i).2.1 < hd ∧
    (ddam_sector hd sp ds i).2.2 < sp ∧
    ((ddam_sector hd sp ds i).1 * hd + (ddam_sector hd sp ds i).2.1) * sp
      + (ddam_sector hd sp ds i).2.2 = ds + i ∧
    (∀ t sd sec, sd < hd → sec < sp → (t * hd + sd) * sp + sec = ds + i →
      (t, sd, sec) = ddam_sector hd sp ds i) ∧
    (∀ pdrive id, (heads pdrive id = 1 ∨ heads pdrive id = 2) ∧
      trs80_floppy pdrive id =
        (mark_directory (heads pdrive id) (spt pdrive id) (dir_sector pdrive id)
          (dir_length pdrive id)).map
          fun marks => ((tracks pdrive id, heads pdrive id, spt pdrive id), marks)) := by
  have hhd : 0 < hd := by omega
  have hsp : 0 < sp := by omega
  have hspec := ddam_sector_spec hd sp ds i hhd hsp
  refine ⟨⟨(List.range dl).map (ddam_sector hd sp ds), ?_, ?_, ?_, ?_⟩, hspec.1, hspec.2.1,
    hspec.2.2, fun t sd sec h1 h2 h3 => ddam_sector_unique hd sp ds i t sd sec h1 h2 h3,
    fun pdrive id => ⟨heads_cases pdrive id, rfl⟩⟩
  · have hno : ¬ (0 < dl ∧ (sp = 0 ∨ hd = 0)) := by omega
    simp only [mark_directory, if_neg hno]
  · simp
  · exact (List.nodup_range dl).map (ddam_sector_injective hd sp ds hhd hsp)
  · simp [hi]

/-- C10 witness: single sided, 10 sectors per track, directory of 10 sectors
from linear sector 10, fourth directory sector. -/
theorem directory_marking_witness :
    (∃ marks, mark_directory 1 10 10 10 = some marks ∧
      marks.length = 10 ∧ marks.Nodup ∧
      marks[3]? = some (ddam_sector 1 10 10 3)) ∧
    ddam_sector 1 10 10 3 = (1, 0, 3) :=
  ⟨(directory_marking 1 10 10 10 3 (Or.inl rfl) (by decide) (by decide)).1, by decide⟩

end TRS80

namespace Atom

theorem mirror_fold (regions : Regions) (region : String) (o size : Nat) (src : List Nat)
    (hs : 0 < size) (m : Nat) :
    (List.range m).foldl
        (fun regs i => memcpy_region regs region (o + i * size) src size) regions
      = fun r a =>
          if r = region ∧ o ≤ a ∧ a < o + m * size then src.getD ((a - o) % size) 0
          else regions r a := by
  induction m with
  | zero =>
    funext r a
    have : ¬ (r = region ∧ o ≤ a ∧ a < o + 0 * size) := by
      rintro ⟨_, h1, h2⟩; omega
    simp only [List.range_zero, List.foldl_nil]
    rw [if_neg this]
  | succ m ih =>
    rw [List.range_succ, List.foldl_append, ih]
    funext r a
    simp only [List.foldl_cons, List.foldl_nil, memcpy_region]
    have hsucc : (m + 1) * size = m * size + size := Nat.succ_mul m size
    rw [hsucc]
    by_cases hr : r = region
    · by_cases hin : o + m * size ≤ a ∧ a < o + m * size + size
      · have hmod : (a - o) % size = a - (o + m * size) := by
          have e : a - o = a - (o + m * size) + size * m := by
            rw [Nat.mul_comm size m]; omega
          rw [e, Nat.add_mul_mod_self_left]
          apply Nat.mod_eq_of_lt
          omega
        have c1 : r = region ∧ o + m * size ≤ a ∧ a < o + m * size + size := ⟨hr, hin⟩
        have c2 : r = region ∧ o ≤ a ∧ a < o + (m * size + size) :=
          ⟨hr, by omega, by omega⟩
        rw [if_pos c1, if_pos c2, hmod]
      · have c1 : ¬ (r = region ∧ o + m * size ≤ a ∧ a < o + m * size + size) :=
          fun h => hin h.2
        rw [if_neg c1]
        by_cases hold : o ≤ a ∧ a < o + m * size
        · rw [if_pos ⟨hr, hold⟩, if_pos ⟨hr, hold.1, by omega⟩]
        · have c3 : ¬ (r = region ∧ o ≤ a ∧ a < o + m * size) := fun h => hold h.2
          have c4 : ¬ (r = region ∧ o ≤ a ∧ a < o + (m * size + size)) := by
            rintro ⟨_, h1, h2⟩
            by_cases h3 : a < o + m * size
            · exact hold ⟨h1, h3⟩
            · exact hin ⟨by omega, by omega⟩
          rw [if_neg c3, if_neg c4]
    · have c1 : ¬ (r = region ∧ o + m * size ≤ a ∧ a < o + m * size + size) :=
        fun h => hr h.1
      have c3 : ¬ (r = region ∧ o ≤ a ∧ a < o + m * size) := fun h => hr h.1
      have c4 : ¬ (r = region ∧ o ≤ a ∧ a < o + (m * size + size)) := fun h => hr h.1
      rw [if_neg c1, if_neg c3, if_neg c4]

/-- The regions after a successful raw load. -/
theorem atom_cart_raw_pass (tag : String) (c : atom_cart_range) (size : Nat)
    (readable : List Nat) (regions : Regions)
    (hc : find_cart tag = some c) (h1 : 1 ≤ size) (h2 : size ≤ 0x1000)
    (hr : size ≤ readable.length) :
    atom_cart tag (.raw size readable) regions =
      some ⟨.IMAGE_INIT_PASS, none, fun r a =>
        if r = c.region ∧ c.offset ≤ a ∧ a < c.offset + (0x1000 / size) * size then
          readable.getD ((a - c.offset) % size) 0
        else regions r a⟩ := by
  have hsz : ¬ size > 0x1000 := by omega
  have hmin : ¬ (min size readable.length ≠ size) := by
    simp [Nat.min_eq_left hr]
  have h0 : size ≠ 0 := by omega
  simp only [atom_cart, hc, if_neg hsz, if_neg hmin, mirror_cart, if_neg h0]
  rw [mirror_fold _ _ _ _ _ (by omega)]
  congr 2
  funext r a
  by_cases hcond : r = c.region ∧ c.offset ≤ a ∧ a < c.offset + (0x1000 / size) * size
  · rw [if_pos hcond, if_pos hcond]
    have : (a - c.offset) % size < size := Nat.mod_lt _ (by omega)
    simp [List.getD_eq_getElem?_getD, List.getElem?_take, this]
  · rw [if_neg hcond, if_neg hcond]

/-- A raw image longer than 0x1000 bytes is refused with "Unsupported
cartridge size" and the regions are untouched. -/
theorem atom_cart_raw_too_large (tag : String) (size : Nat) (readable : List Nat)
    (regions : Regions) (h : size > 0x1000) :
    atom_cart tag (.raw size readable) regions =
      some ⟨.IMAGE_INIT_FAIL, some "Unsupported cartridge size", regions⟩ := by
  simp only [atom_cart, if_pos h]

/-- A raw image of at most 0x1000 bytes that is not read in full is refused
with "Unable to fully read from file" and the regions are untouched. -/
theorem atom_cart_raw_short_read (tag : String) (size : Nat) (readable : List Nat)
    (regions : Regions) (h : size ≤ 0x1000) (hr : readable.length < size) :
    atom_cart tag (.raw size readable) regions =
      some ⟨.IMAGE_INIT_FAIL, some "Unable to fully read from file", regions⟩ := by
  have h1 : ¬ size > 0x1000 := by omega
  have h2 : min size readable.length ≠ size := by
    rw [Nat.min_eq_right (Nat.le_of_lt hr)]; omega
  simp only [atom_cart, if_neg h1, if_pos h2]

/-- C6: a raw image of length 0 passes the size check and the read check
and reaches `mirror = 0x1000 / size` with size 0: the load neither passes
nor fails, for every slot and every content of the regions. -/
theorem atom_cart_empty_image (tag : String) (readable : List Nat) (regions : Regions) :
    (atom_cart "cart" (.raw 0 []) (fun _ _ => 0xFF)).isNone = true ∧
    (atom_cart tag (.raw 0 readable) regions).isNone = true := by
  refine ⟨by decide, ?_⟩
  simp [atom_cart, mirror_cart]

/-- C7: a raw image of 0xC00 bytes 0x3C loaded in slot a1 (offset 0x1000 of
region a000, erased to 0xFF) is copied once: the load passes, offset 0xC00
of the window still holds 0xFF, not the image byte at 0xC00 mod 0xC00, while
offset 0xBFF holds the image byte. -/
theorem atom_cart_partial_mirror :
    (atom_cart "a1" (.raw 0xC00 (List.replicate 0xC00 0x3C)) (fun _ _ => 0xFF)).map
      (fun out => (out.result, out.regions "a000" (0x1000 + 0xC00),
        out.regions "a000" (0x1000 + 0xBFF))) = some (.IMAGE_INIT_PASS, 0xFF, 0x3C) := by
  have hlen : 0xC00 ≤ (List.replicate 0xC00 0x3C).length := by
    rw [List.length_replicate]
  rw [atom_cart_raw_pass "a1" ⟨"a1", 0x1000, "a000"⟩ 0xC00 _ _ (by decide) (by decide)
    (by decide) hlen]
  simp only [Option.map_some']
  rw [if_neg (by decide), if_pos (by decide), List.getD_eq_getElem?_getD,
    List.getElem?_replicate, if_pos (by decide)]
  rfl

end Atom

/-! # Theorems: UART, keyboard, EPROM box, floppy interrupt, sound buffer, banking -/

namespace Bits

theorem and_two_pow_ne_zero (n k : Nat) : (n &&& 2 ^ k ≠ 0) ↔ n.testBit k = true := by
  constructor
  · intro h
    by_contra hb
    apply h
    apply Nat.eq_of_testBit_eq
    intro i
    simp only [Nat.testBit_and, Nat.zero_testBit, Nat.testBit_two_pow]
    by_cases hi : k = i
    · subst hi; simp at hb; simp [hb]
    · simp [hi]
  · intro hb h
    have := congrArg (fun x => Nat.testBit x k) h
    simp [Nat.testBit_and, Nat.testBit_two_pow, hb] at this

end Bits

namespace Jedi

/-! ### Program ROM bank select -/

theorem rom_banksel_w_bank (s : jedi_state) (offset data : Nat) :
    (rom_banksel_w s offset data).bank1 =
      if data.testBit 2 then 2 else if data.testBit 1 then 1
      else if data.testBit 0 then 0 else s.bank1 := by
  have h0 := Bits.and_two_pow_ne_zero data 0
  have h1 := Bits.and_two_pow_ne_zero data 1
  have h2 := Bits.and_two_pow_ne_zero data 2
  simp only [pow_zero, pow_one] at h0 h1
  have e4 : (2 : Nat) ^ 2 = 4 := by norm_num
  rw [e4] at h2
  unfold rom_banksel_w
  simp only []
  by_cases b2 : data.testBit 2 = true
  · rw [if_pos (h2.2 b2), if_pos b2]
  · rw [if_neg (fun hc => b2 (h2.1 hc)), if_neg b2]
    by_cases b1 : data.testBit 1 = true
    · rw [if_pos (h1.2 b1), if_pos b1]
    · rw [if_neg (fun hc => b1 (h1.1 hc)), if_neg b1]
      by_cases b0 : data.testBit 0 = true
      · rw [if_pos (h0.2 b0), if_pos b0]
      · rw [if_neg (fun hc => b0 (h0.1 hc)), if_neg b0]

theorem and_seven_eq_zero (data : Nat) :
    data &&& 0x07 = 0 ↔ (data.testBit 0 = false ∧ data.testBit 1 = false ∧ data.testBit 2 = false) := by
  have e : (0x07 : Nat) = 2 ^ 3 - 1 := by norm_num
  rw [e, Nat.and_pow_two_sub_one_eq_mod]
  simp only [Nat.testBit_to_div_mod]
  simp
  omega

/-- C19: `rom_banksel_w` leaves the bank unchanged when `data & 0x07` is 0 and
otherwise selects the index of the highest set bit among bits 0..2 (for a
single set bit, that bit's index); that index is one of the 3 configured
entries, and entry k is the 0x4000-byte window at 0x10000 + k * 0x4000,
inside the 0x1C000-byte region "maincpu", where the ROM of page k is loaded. -/
theorem rom_bank_select (s : jedi_state) (offset data : Nat) :
    rom_banksel_w s offset data =
      (if data &&& 0x07 = 0 then s else { s with bank1 := highest_bank_bit data }) ∧
    highest_bank_bit data < bank1_entries ∧
    highest_bank_bit 0x01 = 0 ∧ highest_bank_bit 0x02 = 1 ∧ highest_bank_bit 0x04 = 2 ∧
    (List.range bank1_entries).all (fun k =>
      decide (bank1_offset k + bank1_stride ≤ maincpu_region_size) &&
      maincpu_rom_loads.any (fun l =>
        l.2.1 == bank1_offset k && l.2.2.1 == bank1_stride && l.2.2.2 == some k)) = true := by
  refine ⟨?_, ?_, by decide, by decide, by decide, by decide⟩
  · have hb := rom_banksel_w_bank s offset data
    have hrest : rom_banksel_w s offset data =
        { s with bank1 := (rom_banksel_w s offset data).bank1 } := by
      unfold rom_banksel_w
      simp only []
      split <;> split <;> split <;> rfl
    rw [hrest, hb]
    by_cases hz : data &&& 0x07 = 0
    · obtain ⟨z0, z1, z2⟩ := (and_seven_eq_zero data).1 hz
      simp [hz, z0, z1, z2]
    · rw [if_neg hz]
      unfold highest_bank_bit
      by_cases b2 : data.testBit 2 = true
      · simp [b2]
      · by_cases b1 : data.testBit 1 = true
        · simp [b2, b1]
        · have b0 : data.testBit 0 = true := by
            by_contra b0
            exact hz ((and_seven_eq_zero data).2
              ⟨by simpa using b0, by simpa using b1, by simpa using b2⟩)
          simp [b2, b1, b0]
  · unfold highest_bank_bit bank1_entries
    split
    · omega
    · split <;> omega

end Jedi

namespace TRS80

/-! ### UART and keyboard -/

theorem baud_clock_documented (n : Fin 16) :
    ((baud_clock.getD n 0 : Nat) : ℚ) = 16 * documented_baud.getD n 0 := by
  fin_cases n <;> norm_num [baud_clock, documented_baud]

theorem baud_clock_get (i : Nat) (h : i < 16) :
    baud_clock[i]? = some (baud_clock.getD i 0) := by
  have hl : i < baud_clock.length := h
  simp [List.getD_eq_getElem?_getD, List.getElem?_eq_getElem hl]

theorem e9_indices (data : Nat) :
    (data % 256) &&& 0x0f = data % 16 ∧ (data % 256) >>> 4 = data / 16 % 16 := by
  have e : (0x0f : Nat) = 2 ^ 4 - 1 := by norm_num
  rw [e, Nat.and_pow_two_sub_one_eq_mod, Nat.shiftRight_eq_div_pow]
  constructor <;> omega

theorem e9_clocks (data : Nat) :
    trs80m4_e9_w data =
      some (baud_clock.getD (data % 16) 0, baud_clock.getD (data / 16 % 16) 0) := by
  unfold trs80m4_e9_w
  simp only []
  rw [(e9_indices data).1, (e9_indices data).2,
    baud_clock_get _ (Nat.mod_lt _ (by norm_num)), baud_clock_get _ (Nat.mod_lt _ (by norm_num))]

theorem ite_or_acc (c : Prop) [Decidable c] (acc x : Nat) :
    (if c then acc ||| x else acc) = acc ||| (if c then x else 0) := by
  split <;> simp

theorem selected_lines_eq (LINE : Nat → Nat) (offset : Nat) :
    selected_lines LINE offset =
      (if offset.testBit 0 then LINE 0 else 0) ||| (if offset.testBit 1 then LINE 1 else 0) |||
      (if offset.testBit 2 then LINE 2 else 0) ||| (if offset.testBit 3 then LINE 3 else 0) |||
      (if offset.testBit 4 then LINE 4 else 0) ||| (if offset.testBit 5 then LINE 5 else 0) |||
      (if offset.testBit 6 then LINE 6 else 0) ||| (if offset.testBit 7 then LINE 7 else 0) := by
  have hr : List.range 8 = [0, 1, 2, 3, 4, 5, 6, 7] := by decide
  simp only [selected_lines, hr, List.foldl_cons, List.foldl_nil, ite_or_acc]
  simp

theorem sel_lt (c : Prop) [Decidable c] (x : Nat) (hx : x < 256) :
    (if c then x else 0) < 2 ^ 8 := by
  split <;> omega

theorem selected_lines_lt (LINE : Nat → Nat) (offset : Nat) (hb : ∀ k, k < 8 → LINE k < 256) :
    selected_lines LINE offset < 256 := by
  rw [selected_lines_eq]
  have e : (256 : Nat) = 2 ^ 8 := by norm_num
  rw [e]
  repeat' apply Nat.or_lt_two_pow
  all_goals exact sel_lt _ _ (hb _ (by norm_num))

theorem keyboard_r_eq (LINE : Nat → Nat) (offset : Nat) :
    trs80_keyboard_r LINE offset = selected_lines LINE offset % 256 := by
  have h (k : Nat) : (offset &&& 2 ^ k ≠ 0) = (offset.testBit k = true) :=
    propext (Bits.and_two_pow_ne_zero offset k)
  have h0 : (offset &&& 1 ≠ 0) = (offset.testBit 0 = true) := h 0
  have h1 : (offset &&& 2 ≠ 0) = (offset.testBit 1 = true) := h 1
  have h2 : (offset &&& 4 ≠ 0) = (offset.testBit 2 = true) := h 2
  have h3 : (offset &&& 8 ≠ 0) = (offset.testBit 3 = true) := h 3
  have h4 : (offset &&& 16 ≠ 0) = (offset.testBit 4 = true) := h 4
  have h5 : (offset &&& 32 ≠ 0) = (offset.testBit 5 = true) := h 5
  have h6 : (offset &&& 64 ≠ 0) = (offset.testBit 6 = true) := h 6
  have h7 : (offset &&& 128 ≠ 0) = (offset.testBit 7 = true) := h 7
  unfold trs80_keyboard_r
  simp only [ite_or_acc, selected_lines_eq, h0, h1, h2, h3, h4, h5, h6, h7, Nat.zero_or]

theorem sel_or (LINE : Nat → Nat) (a b k : Nat) :
    (if (a ||| b).testBit k = true then LINE k else 0) =
      (if a.testBit k = true then LINE k else 0) ||| (if b.testBit k = true then LINE k else 0) := by
  rw [Nat.testBit_or]
  cases a.testBit k <;> cases b.testBit k <;> simp

theorem selected_lines_or (LINE : Nat → Nat) (a b : Nat) :
    selected_lines LINE (a ||| b) = selected_lines LINE a ||| selected_lines LINE b := by
  simp only [selected_lines_eq, sel_or]
  ac_rfl

theorem selected_lines_single (LINE : Nat → Nat) (k : Fin 8) :
    selected_lines LINE (2 ^ (k : Nat)) = LINE k := by
  rw [selected_lines_eq]
  simp only [Nat.testBit_two_pow]
  fin_cases k <;> simp

/-- C11: for every byte written by `trs80m4_e9_w` the receiver clock comes
from the low nibble and the transmitter clock from the high nibble, both
indices lie inside the 16-entry table, and the clock programmed for a nibble
is exactly 16 times the baud rate documented for it. -/
theorem uart_baud_select (data : Nat) (n : Fin 16) :
    trs80m4_e9_w data =
      some (baud_clock.getD (data % 16) 0, baud_clock.getD (data / 16 % 16) 0) ∧
    (data % 256) &&& 0x0f = data % 16 ∧ (data % 256) >>> 4 = data / 16 % 16 ∧
    data % 16 < baud_clock.length ∧ data / 16 % 16 < baud_clock.length ∧
    baud_clock.length = 16 ∧
    ((baud_clock.getD n 0 : Nat) : ℚ) = 16 * documented_baud.getD n 0 ∧
    documented_baud =
      [50, 75, 100, 134.5, 150, 300, 600, 1200, 1800, 2000, 2400, 3600, 4800, 7200, 9600,
        19200] := by
  have hl : baud_clock.length = 16 := rfl
  refine ⟨e9_clocks data, (e9_indices data).1, (e9_indices data).2, ?_, ?_, hl,
    baud_clock_documented n, rfl⟩
  · rw [hl]; exact Nat.mod_lt _ (by norm_num)
  · rw [hl]; exact Nat.mod_lt _ (by norm_num)

/-- C12: `sys80_f9_r` starts from the decimal constant 70 (0x46), so with
TBMT high and every other pin low it returns 0x46: bits 1 and 2 are set
although Overrun and Framing Error are low. For all pins, bits 0, 3 and 7
follow DAV, PE and the inverted TBMT, and bits 1 and 2 are always set. -/
theorem uart_status_constant (pins : UartPins) :
    sys80_f9_r ⟨1, 0, 0, 0, 0⟩ = 0x46 ∧
    (sys80_f9_r ⟨1, 0, 0, 0, 0⟩).testBit 1 = true ∧
    (sys80_f9_r ⟨1, 0, 0, 0, 0⟩).testBit 2 = true ∧
    (sys80_f9_r pins).testBit 0 = decide (pins.DAV ≠ 0) ∧
    (sys80_f9_r pins).testBit 1 = true ∧
    (sys80_f9_r pins).testBit 2 = true ∧
    (sys80_f9_r pins).testBit 3 = decide (pins.PE ≠ 0) ∧
    (sys80_f9_r pins).testBit 7 = decide (pins.TBMT = 0) := by
  refine ⟨by decide, by decide, by decide, ?_, ?_, ?_, ?_, ?_⟩ <;>
  · unfold sys80_f9_r
    by_cases h1 : pins.TBMT = 0 <;> by_cases h2 : pins.DAV = 0 <;>
    by_cases h3 : pins.OR = 0 <;> by_cases h4 : pins.FE = 0 <;>
    by_cases h5 : pins.PE = 0 <;> simp [h1, h2, h3, h4, h5] <;> decide

/-- C13: for bytes LINE0..LINE7, `trs80_keyboard_r(offset)` is the bitwise OR
of LINEk over exactly the k in 0..7 with bit k of the offset set; offset 0
gives 0, the offset with the single bit k gives LINEk, and the read of
`a | b` is the OR of the reads of `a` and of `b`. -/
theorem keyboard_matrix_read (LINE : Nat → Nat) (offset a b : Nat) (k : Fin 8)
    (hb : ∀ j, j < 8 → LINE j < 256) :
    trs80_keyboard_r LINE offset = selected_lines LINE offset ∧
    trs80_keyboard_r LINE 0 = 0 ∧
    trs80_keyboard_r LINE (2 ^ (k : Nat)) = LINE k ∧
    trs80_keyboard_r LINE (a ||| b) = trs80_keyboard_r LINE a ||| trs80_keyboard_r LINE b := by
  have hr : ∀ o, trs80_keyboard_r LINE o = selected_lines LINE o := by
    intro o
    rw [keyboard_r_eq, Nat.mod_eq_of_lt (selected_lines_lt LINE o hb)]
  refine ⟨hr offset, ?_, ?_, ?_⟩
  · rw [hr, selected_lines_eq]; simp
  · rw [hr, selected_lines_single]
  · rw [hr, hr, hr, selected_lines_or]

/-- C13 witness: lines 1, 2, ..., 8 and offsets 5, 3 and 6. -/
theorem keyboard_matrix_read_witness :
    (∀ j, j < 8 → (fun n => n + 1) j < 256) ∧
    trs80_keyboard_r (fun n => n + 1) 5 = 3 :=
  ⟨by decide,
    ((keyboard_matrix_read (fun n => n + 1) 5 3 6 2 (by decide)).1).trans (by decide)⟩

end TRS80

namespace Atom

/-! ### EPROM box, keyboard and floppy interrupt -/

theorem slot_tag_find (n : Fin 16) :
    find_cart (slot_tag n) = some ⟨slot_tag n, n * 0x1000, "a000"⟩ := by
  revert n
  decide

theorem fdc_interrupts_length (states : List Int) :
    ∀ p : Int, (fdc_interrupts p states).1.length = states.length := by
  induction states with
  | nil => intro p; rfl
  | cons s rest ih => intro p; simp [fdc_interrupts, ih]

theorem fdc_interrupts_final (states : List Int) :
    ∀ p : Int, (fdc_interrupts p states).2 = states.getLastD p := by
  induction states with
  | nil => intro p; rfl
  | cons s rest ih =>
    intro p
    simp only [fdc_interrupts, ih, atom_8271_interrupt_callback]
    cases rest <;> simp [List.getLastD]

theorem fdc_interrupts_get (states : List Int) :
    ∀ (p : Int) (i : Nat), i < states.length →
      (fdc_interrupts p states).1.getD i false =
        (atom_8271_interrupt_callback (if i = 0 then p else states.getD (i - 1) 0)
          (states.getD i 0)).1 := by
  induction states with
  | nil => intro p i hi; simp at hi
  | cons s rest ih =>
    intro p i hi
    cases i with
    | zero => simp [fdc_interrupts]
    | succ j =>
      have hj : j < rest.length := by simpa using hi
      have := ih s j hj
      simp only [fdc_interrupts, atom_8271_interrupt_callback] at this ⊢
      simp only [List.getD_cons_succ, this]
      cases j with
      | zero => simp
      | succ k => simp

theorem edge_bit (p s : Int) (hp : p = 0 ∨ p = 1) (hs : s = 0 ∨ s = 1) :
    (atom_8271_interrupt_callback p s).1 = decide (s = 1 ∧ p = 0) := by
  rcases hp with rfl | rfl <;> rcases hs with rfl | rfl <;> decide

/-- C16: for a sequence of calls `atom_8271_interrupt_callback(state)` with
states in {0, 1}, starting from previous state 0, call i pulses the NMI line
exactly when its state is 1 and the state of the call before (0 for the first
call) was 0; every call stores the state it was given, so the static ends as
the last state. -/
theorem fdc_nmi_edge_triggered (states : List Int) (i : Nat)
    (hb : ∀ s ∈ states, s = 0 ∨ s = 1) (hi : i < states.length) :
    (fdc_interrupts 0 states).1.length = states.length ∧
    (fdc_interrupts 0 states).1.getD i false =
      decide (states.getD i 0 = 1 ∧ (if i = 0 then 0 else states.getD (i - 1) 0) = 0) ∧
    (fdc_interrupts 0 states).2 = states.getLastD 0 ∧
    (∀ p s : Int, (atom_8271_interrupt_callback p s).2 = s) := by
  refine ⟨fdc_interrupts_length states 0, ?_, fdc_interrupts_final states 0, fun _ _ => rfl⟩
  rw [fdc_interrupts_get states 0 i hi]
  have hcur : states.getD i 0 = 0 ∨ states.getD i 0 = 1 := by
    apply hb
    rw [List.getD_eq_getElem _ _ hi]
    exact List.getElem_mem _
  have hprev : (if i = 0 then (0 : Int) else states.getD (i - 1) 0) = 0 ∨
      (if i = 0 then (0 : Int) else states.getD (i - 1) 0) = 1 := by
    by_cases h0 : i = 0
    · left; simp [h0]
    · rw [if_neg h0]
      have hlt : i - 1 < states.length := by omega
      apply hb
      rw [List.getD_eq_getElem _ _ hlt]
      exact List.getElem_mem _
  exact edge_bit _ _ hprev hcur

/-- C16 witness: the calls 1, 1, 0, 1; the fourth pulses the NMI. -/
theorem fdc_nmi_edge_triggered_witness :
    (fdc_interrupts 0 [1, 1, 0, 1]).1.getD 3 false = true :=
  ((fdc_nmi_edge_triggered [1, 1, 0, 1] 3 (by decide) (by decide)).2.1).trans (by decide)

theorem and_ff_byte (x : Nat) (h : x < 256) : 0xff &&& x = x := by
  have e : (0xff : Nat) = 2 ^ 8 - 1 := by norm_num
  rw [Nat.and_comm, e, Nat.and_pow_two_sub_one_eq_mod]
  omega

theorem ppi_pb_r_eq (s : atom_state) (KEY : Nat → Nat) :
    ppi_pb_r s KEY =
      if s.keylatch ≤ 9 then 0xff &&& KEY s.keylatch &&& KEY 10 else 0xff &&& KEY 10 := by
  unfold ppi_pb_r
  generalize s.keylatch = k
  rcases Nat.lt_or_ge k 10 with h | h
  · have hk : k ≤ 9 := by omega
    rw [if_pos hk]
    interval_cases k <;> rfl
  · have hk : ¬ k ≤ 9 := by omega
    rw [if_neg hk]
    obtain ⟨m, rfl⟩ : ∃ m, k = m + 10 := ⟨k - 10, by omega⟩
    rfl

theorem pb_bits (x y i : Nat) :
    (0xff &&& x &&& y).testBit i = (decide (i < 8) && x.testBit i && y.testBit i) := by
  have e : (0xff : Nat) = 2 ^ 8 - 1 := by norm_num
  rw [Nat.testBit_and, Nat.testBit_and, e, Nat.testBit_two_pow_sub_one]


/-- C14: after `eprom_w(data)` a read through `eprom_r` returns `data & 0x0F`
(the low nibble), and the window installed at 0xA000-0xAFFF starts at offset
`(data & 0x0F) * 0x1000` of region "a000": its 0x1000 bytes lie inside the
0x10000-byte region of the atomeb ROM set and are the load window of
cartridge slot a0 .. af with the same hexadecimal digit. -/
theorem eprom_slot_select (s : atom_state) (data : Nat) :
    eprom_r (eprom_w s data).1 = data &&& 0x0f ∧
    data &&& 0x0f = data % 16 ∧
    (eprom_w s data).2 = ⟨0xa000, 0xafff, "a000", (data &&& 0x0f) * 0x1000⟩ ∧
    (eprom_w s data).2.stop + 1 - (eprom_w s data).2.start = 0x1000 ∧
    atomeb_regions.lookup "a000" = some 0x10000 ∧
    (data &&& 0x0f) * 0x1000 + 0x1000 ≤ 0x10000 ∧
    find_cart (slot_tag (data &&& 0x0f)) =
      some ⟨slot_tag (data &&& 0x0f), (data &&& 0x0f) * 0x1000, "a000"⟩ := by
  have e : (0x0f : Nat) = 2 ^ 4 - 1 := by norm_num
  have hmod : data &&& 0x0f = data % 16 := by
    rw [e, Nat.and_pow_two_sub_one_eq_mod]
  have hlt : data % 16 < 16 := Nat.mod_lt _ (by norm_num)
  refine ⟨rfl, hmod, ?_, ?_, by decide, ?_, ?_⟩
  · simp only [eprom_w, bankswitch, Nat.shiftLeft_eq]
  · simp only [eprom_w, bankswitch]
  · rw [hmod]; omega
  · rw [hmod]
    exact slot_tag_find ⟨data % 16, hlt⟩

/-- C15: with keylatch the low nibble of the byte written through
`ppi_pa_w`, `ppi_pb_r` returns KEY<keylatch> AND KEY10 for keylatch 0..9 and
KEY10 alone for keylatch 10..15; when bits 6-7 of KEY0..KEY9 and bits 0-5 of
KEY10 read as 1, bits 0..5 of the result are those of the selected keyboard
line (all 1 when no line is selected) and bits 6 and 7 are those of KEY10,
the CTRL and SHIFT keys, whatever the selected line. -/
theorem atom_keyboard_read (s : atom_state) (data : Nat) (KEY : Nat → Nat) (i : Nat)
    (hk : ∀ n, n < 10 → (KEY n).testBit 6 = true ∧ (KEY n).testBit 7 = true)
    (h10 : ∀ j, j < 6 → (KEY 10).testBit j = true)
    (hbyte : ∀ n, n < 11 → KEY n < 256) (hi : i < 6) :
    (ppi_pa_w s data).1.keylatch = data % 16 ∧
    ppi_pb_r (ppi_pa_w s data).1 KEY =
      (if data % 16 ≤ 9 then KEY (data % 16) &&& KEY 10 else KEY 10) ∧
    (ppi_pb_r (ppi_pa_w s data).1 KEY).testBit i =
      (if data % 16 ≤ 9 then (KEY (data % 16)).testBit i else true) ∧
    (ppi_pb_r (ppi_pa_w s data).1 KEY).testBit 6 = (KEY 10).testBit 6 ∧
    (ppi_pb_r (ppi_pa_w s data).1 KEY).testBit 7 = (KEY 10).testBit 7 := by
  have e : (0x0f : Nat) = 2 ^ 4 - 1 := by norm_num
  have hlatch : (ppi_pa_w s data).1.keylatch = data % 16 := by
    simp only [ppi_pa_w]
    rw [e, Nat.and_pow_two_sub_one_eq_mod]
  have hval : ppi_pb_r (ppi_pa_w s data).1 KEY =
      (if data % 16 ≤ 9 then KEY (data % 16) &&& KEY 10 else KEY 10) := by
    rw [ppi_pb_r_eq, hlatch]
    by_cases hle : data % 16 ≤ 9
    · rw [if_pos hle, if_pos hle, and_ff_byte _ (hbyte _ (by omega))]
    · rw [if_neg hle, if_neg hle, and_ff_byte _ (hbyte 10 (by norm_num))]
  refine ⟨hlatch, hval, ?_, ?_, ?_⟩
  · rw [hval]
    by_cases hle : data % 16 ≤ 9
    · rw [if_pos hle, if_pos hle, Nat.testBit_and, h10 i hi, Bool.and_true]
    · rw [if_neg hle, if_neg hle, h10 i hi]
  · rw [hval]
    by_cases hle : data % 16 ≤ 9
    · rw [if_pos hle, Nat.testBit_and, (hk _ (by omega)).1, Bool.true_and]
    · rw [if_neg hle]
  · rw [hval]
    by_cases hle : data % 16 ≤ 9
    · rw [if_pos hle, Nat.testBit_and, (hk _ (by omega)).2, Bool.true_and]
    · rw [if_neg hle]

/-- C15 witness: 0x53 written to port A selects line 3; KEY0..KEY9 read 0xFD
and KEY10 reads 0x7F (SHIFT held), so port B reads 0x7D. -/
theorem atom_keyboard_read_witness :
    (∀ n, n < 10 → ((fun n => if n = 10 then 0x7F else 0xFD) n).testBit 6 = true ∧
      ((fun n => if n = 10 then 0x7F else 0xFD) n).testBit 7 = true) ∧
    (∀ j, j < 6 → ((fun n => if n = 10 then 0x7F else 0xFD) 10).testBit j = true) ∧
    (∀ n, n < 11 → (fun n => if n = 10 then 0x7F else 0xFD) n < 256) ∧
    ppi_pb_r (ppi_pa_w ⟨0, 0⟩ 0x53).1 (fun n => if n = 10 then 0x7F else 0xFD) = 0x7D :=
  ⟨by decide, by decide, by decide,
    ((atom_keyboard_read ⟨0, 0⟩ 0x53 (fun n => if n = 10 then 0x7F else 0xFD) 1
      (by decide) (by decide) (by decide) (by decide)).2.1).trans (by decide)⟩

end Atom

namespace Mac

theorem drain_cache_keeps (n : Nat) : ∀ t : mac_sound,
    (drain_cache n t).indexx = t.indexx ∧ (drain_cache n t).sample_enable = t.sample_enable ∧
    (drain_cache n t).snd_cache = t.snd_cache ∧
    (drain_cache n t).snd_cache_tail = t.snd_cache_tail := by
  induction n with
  | zero => intro t; exact ⟨rfl, rfl, rfl, rfl⟩
  | succ n ih =>
    intro t
    unfold drain_cache
    split
    · exact ⟨rfl, rfl, rfl, rfl⟩
    · exact ih _

theorem stream_update_keeps (sr n : Nat) (t : mac_sound) :
    (stream_update sr n t).indexx = t.indexx ∧
    (stream_update sr n t).sample_enable = t.sample_enable ∧
    (stream_update sr n t).snd_cache = t.snd_cache ∧
    (stream_update sr n t).snd_cache_tail = t.snd_cache_tail := by
  unfold stream_update
  split
  · exact ⟨rfl, rfl, rfl, rfl⟩
  · exact drain_cache_keeps n t

theorem high_byte (w : Nat) : ((w % 65536) >>> 8) &&& 0xff = w % 65536 / 256 := by
  have e : (0xff : Nat) = 2 ^ 8 - 1 := by norm_num
  rw [e, Nat.and_pow_two_sub_one_eq_mod, Nat.shiftRight_eq_div_pow]
  omega

theorem drain_cache_indexx (n : Nat) (i : Int) :
    ∀ (se : Int) (sc : List Nat) (len head tail : Nat) (idx : Int),
      drain_cache n ⟨se, sc, len, head, tail, i⟩ =
        { drain_cache n ⟨se, sc, len, head, tail, idx⟩ with indexx := i } := by
  induction n with
  | zero => intro se sc len head tail idx; rfl
  | succ n ih =>
    intro se sc len head tail idx
    unfold drain_cache
    by_cases h : len = 0
    · simp only [h, if_true]
    · simp only [h, if_false]
      exact ih se sc (len - 1) ((head + 1) % SND_CACHE_SIZE) tail idx

theorem stream_update_indexx (sr n : Nat) (i : Int) (t : mac_sound) :
    stream_update sr n { t with indexx := i } = { stream_update sr n t with indexx := i } := by
  unfold stream_update
  split
  · rfl
  · exact drain_cache_indexx n i t.sample_enable t.snd_cache t.snd_cache_len t.snd_cache_head
      t.snd_cache_tail t.indexx

theorem updatebuffer_eq (base : Int → Nat) (sr smp : Nat) (t : mac_sound)
    (h0 : 0 ≤ t.indexx) :
    mac_sh_updatebuffer base sr smp t =
      if (if t.snd_cache_len ≥ SND_CACHE_SIZE then (stream_update sr smp t).snd_cache_len
          else t.snd_cache_len) ≥ SND_CACHE_SIZE then
        { (if t.snd_cache_len ≥ SND_CACHE_SIZE then stream_update sr smp t else t) with
          indexx := (t.indexx + 1) % 370 }
      else
        { (if t.snd_cache_len ≥ SND_CACHE_SIZE then stream_update sr smp t else t) with
          indexx := (t.indexx + 1) % 370,
          snd_cache := t.snd_cache.set t.snd_cache_tail
            (if t.sample_enable ≠ 0 then base ((t.indexx + 1) % 370) % 65536 / 256 else 0),
          snd_cache_tail := (t.snd_cache_tail + 1) % SND_CACHE_SIZE,
          snd_cache_len :=
            (if t.snd_cache_len ≥ SND_CACHE_SIZE then (stream_update sr smp t).snd_cache_len
             else t.snd_cache_len) + 1 } := by
  have hm : Int.tmod (t.indexx + 1) 370 = (t.indexx + 1) % 370 :=
    Int.tmod_eq_emod (by omega) (by norm_num)
  have hk := stream_update_keeps sr smp t
  unfold mac_sh_updatebuffer
  simp only [hm, high_byte]
  by_cases hfull : t.snd_cache_len ≥ SND_CACHE_SIZE
  · simp only [if_pos hfull, stream_update_indexx, hk.1, hk.2.1, hk.2.2.1, hk.2.2.2]
  · simp only [if_neg hfull]

theorem updatebuffer_indexx (base : Int → Nat) (sr smp : Nat) (t : mac_sound)
    (h0 : 0 ≤ t.indexx) :
    (mac_sh_updatebuffer base sr smp t).indexx = (t.indexx + 1) % 370 := by
  rw [updatebuffer_eq base sr smp t h0]
  split_ifs <;> rfl

theorem after_calls_indexx (base : Int → Nat) (sr smp : Nat) (t : mac_sound)
    (h0 : 0 ≤ t.indexx) (h1 : t.indexx < 370) (n : Nat) :
    (after_calls base sr smp t n).indexx = (t.indexx + n) % 370 := by
  induction n with
  | zero => simp only [after_calls]; omega
  | succ n ih =>
    simp only [after_calls]
    rw [updatebuffer_indexx _ _ _ _ (by rw [ih]; omega), ih]
    push_cast
    omega


/-- C17: for an index in [0, 370), every call of `mac_sh_updatebuffer` first
advances the index by one modulo 370, so the index used for the fetch is
again in [0, 370) = [0, MAC_SND_BUF_SIZE); after n calls the index is back at
its starting value exactly when 370 divides n; and a call that queues a byte
(the cache is not full after the stream update) stores at the tail the high
byte of the 16-bit word `base[index]` if `sample_enable` is nonzero and 0 if
it is zero. -/
theorem sound_buffer_fetch (base : Int → Nat) (sr smp : Nat) (t : mac_sound) (n : Nat)
    (h0 : 0 ≤ t.indexx) (h1 : t.indexx < 370) :
    (mac_sh_updatebuffer base sr smp t).indexx = (t.indexx + 1) % 370 ∧
    0 ≤ (mac_sh_updatebuffer base sr smp t).indexx ∧
    (mac_sh_updatebuffer base sr smp t).indexx < (MAC_SND_BUF_SIZE : Int) ∧
    (after_calls base sr smp t n).indexx = (t.indexx + n) % 370 ∧
    ((after_calls base sr smp t n).indexx = t.indexx ↔ 370 ∣ n) ∧
    mac_sh_updatebuffer base sr smp t =
      (if (if t.snd_cache_len ≥ SND_CACHE_SIZE then (stream_update sr smp t).snd_cache_len
          else t.snd_cache_len) ≥ SND_CACHE_SIZE then
        { (if t.snd_cache_len ≥ SND_CACHE_SIZE then stream_update sr smp t else t) with
          indexx := (t.indexx + 1) % 370 }
      else
        { (if t.snd_cache_len ≥ SND_CACHE_SIZE then stream_update sr smp t else t) with
          indexx := (t.indexx + 1) % 370,
          snd_cache := t.snd_cache.set t.snd_cache_tail
            (if t.sample_enable ≠ 0 then base ((t.indexx + 1) % 370) % 65536 / 256 else 0),
          snd_cache_tail := (t.snd_cache_tail + 1) % SND_CACHE_SIZE,
          snd_cache_len :=
            (if t.snd_cache_len ≥ SND_CACHE_SIZE then (stream_update sr smp t).snd_cache_len
             else t.snd_cache_len) + 1 }) := by
  have hi := updatebuffer_indexx base sr smp t h0
  have hn := after_calls_indexx base sr smp t h0 h1 n
  refine ⟨hi, ?_, ?_, hn, ?_, updatebuffer_eq base sr smp t h0⟩
  · rw [hi]; omega
  · rw [hi]; unfold MAC_SND_BUF_SIZE; omega
  · rw [hn]; omega

/-- C17 witness: from the state `DEVICE_START` leaves, 370 calls bring the
index back to 0. -/
theorem sound_buffer_fetch_witness :
    (0 ≤ DEVICE_START.indexx ∧ DEVICE_START.indexx < 370) ∧
    (after_calls (fun _ => 0xABCD) 22200 1 DEVICE_START 370).indexx = 0 :=
  ⟨⟨by decide, by decide⟩,
    ((sound_buffer_fetch (fun _ => 0xABCD) 22200 1 DEVICE_START 370 (by decide)
      (by decide)).2.2.2.1).trans (by decide)⟩

end Mac

/-! # Theorems: the main CPU address map -/

namespace Bits

theorem mirror_bits (lo hi i : Nat) (h : lo ≤ hi) :
    (2 ^ hi - 2 ^ lo).testBit i = (decide (lo ≤ i) && decide (i < hi)) := by
  have e : 2 ^ hi - 2 ^ lo = 2 ^ lo * (2 ^ (hi - lo) - 1) := by
    rw [Nat.mul_sub, ← pow_add, Nat.mul_one]
    congr 2
    omega
  rw [e, Nat.testBit_mul_pow_two, Nat.testBit_two_pow_sub_one]
  by_cases h1 : lo ≤ i
  · simp [h1]; omega
  · simp [h1]

theorem and_not_mirror (a lo hi : Nat) (h : lo ≤ hi) (hhi : hi ≤ 16) (ha : a < 2 ^ 16) :
    a &&& (0xFFFF ^^^ (2 ^ hi - 2 ^ lo)) = 2 ^ hi * (a / 2 ^ hi) + a % 2 ^ lo := by
  have hlt : a % 2 ^ lo < 2 ^ hi :=
    lt_of_lt_of_le (Nat.mod_lt _ (Nat.two_pow_pos lo)) (Nat.pow_le_pow_right (by norm_num) h)
  apply Nat.eq_of_testBit_eq
  intro i
  have e : (0xFFFF : Nat) = 2 ^ 16 - 1 := by norm_num
  rw [Nat.testBit_mul_pow_two_add _ hlt, Nat.testBit_and, Nat.testBit_xor, e,
    Nat.testBit_two_pow_sub_one, mirror_bits lo hi i h, Nat.testBit_mod_two_pow,
    ← Nat.shiftRight_eq_div_pow, Nat.testBit_shiftRight]
  by_cases h16 : i < 16
  · by_cases h1 : i < hi
    · by_cases h2 : lo ≤ i
      · have h3 : ¬ i < lo := by omega
        simp [h16, h1, h2, h3]
      · have h3 : i < lo := by omega
        simp [h16, h1, h2, h3]
    · have h2 : lo ≤ i := by omega
      have e2 : hi + (i - hi) = i := by omega
      simp [h16, h1, h2, e2]
  · have h1 : ¬ i < hi := by omega
    have hz : a.testBit i = false :=
      Nat.testBit_lt_two_pow (lt_of_lt_of_le ha (Nat.pow_le_pow_right (by norm_num) (by omega)))
    have e2 : hi + (i - hi) = i := by omega
    simp [h16, h1, hz, e2]

theorem pairwise_of_countP_le_one {α : Type} (p : α → Bool) :
    ∀ l : List α, l.countP p ≤ 1 → l.Pairwise (fun x y => ¬ (p x = true ∧ p y = true)) := by
  intro l
  induction l with
  | nil => intro _; exact List.Pairwise.nil
  | cons x xs ih =>
    intro h
    rw [List.countP_cons] at h
    refine List.Pairwise.cons ?_ (ih (by omega))
    intro y hy hxy
    have hpos : 0 < xs.countP p := List.countP_pos_iff.2 ⟨y, hy, hxy.2⟩
    rw [if_pos hxy.1] at h
    omega

end Bits

namespace Jedi

set_option maxHeartbeats 4000000

/-- Every 16-bit address matches exactly one entry of `main_map`: the
mirror masks are runs of consecutive bits, so clearing them is arithmetic,
and the address ranges are then checked block by block. -/
theorem main_map_hits_one (a : Nat) (ha : a < 0x10000) : main_map_hits a = 1 := by
  have m0 : a &&& (0xFFFF ^^^ 0) = a := by
    have h' : a &&& (0xFFFF ^^^ 0) = 2 ^ 0 * (a / 2 ^ 0) + a % 2 ^ 0 :=
      Bits.and_not_mirror a 0 0 (by norm_num) (by norm_num) ha
    rw [h']
    omega
  have m300 : a &&& (0xFFFF ^^^ 0x0300) = 1024 * (a / 1024) + a % 256 := by
    have h' : a &&& (0xFFFF ^^^ 0x0300) = 2 ^ 10 * (a / 2 ^ 10) + a % 2 ^ 8 :=
      Bits.and_not_mirror a 8 10 (by norm_num) (by norm_num) ha
    rw [h']
    omega
  have m3fe : a &&& (0xFFFF ^^^ 0x03fe) = 1024 * (a / 1024) + a % 2 := by
    have h' : a &&& (0xFFFF ^^^ 0x03fe) = 2 ^ 10 * (a / 2 ^ 10) + a % 2 ^ 1 :=
      Bits.and_not_mirror a 1 10 (by norm_num) (by norm_num) ha
    rw [h']
    omega
  have m3ff : a &&& (0xFFFF ^^^ 0x03ff) = 1024 * (a / 1024) := by
    have h' : a &&& (0xFFFF ^^^ 0x03ff) = 2 ^ 10 * (a / 2 ^ 10) + a % 2 ^ 0 :=
      Bits.and_not_mirror a 0 10 (by norm_num) (by norm_num) ha
    rw [h']
    omega
  have m7f : a &&& (0xFFFF ^^^ 0x007f) = 128 * (a / 128) := by
    have h' : a &&& (0xFFFF ^^^ 0x007f) = 2 ^ 7 * (a / 2 ^ 7) + a % 2 ^ 0 :=
      Bits.and_not_mirror a 0 7 (by norm_num) (by norm_num) ha
    rw [h']
    omega
  have m78 : a &&& (0xFFFF ^^^ 0x0078) = 128 * (a / 128) + a % 8 := by
    have h' : a &&& (0xFFFF ^^^ 0x0078) = 2 ^ 7 * (a / 2 ^ 7) + a % 2 ^ 3 :=
      Bits.and_not_mirror a 3 7 (by norm_num) (by norm_num) ha
    rw [h']
    omega
  have mfe : a &&& (0xFFFF ^^^ 0x00fe) = 256 * (a / 256) + a % 2 := by
    have h' : a &&& (0xFFFF ^^^ 0x00fe) = 2 ^ 8 * (a / 2 ^ 8) + a % 2 ^ 1 :=
      Bits.and_not_mirror a 1 8 (by norm_num) (by norm_num) ha
    rw [h']
    omega
  have m1ff : a &&& (0xFFFF ^^^ 0x01ff) = 512 * (a / 512) := by
    have h' : a &&& (0xFFFF ^^^ 0x01ff) = 2 ^ 9 * (a / 2 ^ 9) + a % 2 ^ 0 :=
      Bits.and_not_mirror a 0 9 (by norm_num) (by norm_num) ha
    rw [h']
    omega
  simp only [main_map_hits, main_map, List.countP_cons, List.countP_nil, MapEntry.hit,
    m0, m300, m3fe, m3ff, m7f, m78, mfe, m1ff, Bool.and_eq_true, decide_eq_true_eq]
  clear m0 m300 m3fe m3ff m7f m78 mfe m1ff
  rcases Nat.lt_or_ge a 0x0800 with c | c
  rotate_left
  rcases Nat.lt_or_ge a 0x0c00 with c | c
  rotate_left
  rcases Nat.lt_or_ge a 0x1000 with c | c
  rcases Nat.mod_two_eq_zero_or_one a with p | p
  rotate_left 2
  rcases Nat.lt_or_ge a 0x1400 with c | c
  rotate_left
  rcases Nat.lt_or_ge a 0x1800 with c | c
  rotate_left
  rcases Nat.lt_or_ge a 0x1c00 with c | c
  rotate_left
  rcases Nat.lt_or_ge a 0x1c80 with c | c
  rotate_left
  rcases Nat.lt_or_ge a 0x1d00 with c | c
  rcases Nat.lt_or_ge (a % 8) 3 with p | p
  rotate_left 2
  rcases Nat.lt_or_ge a 0x1d80 with c | c
  rotate_left
  rcases Nat.lt_or_ge a 0x1e00 with c | c
  rotate_left
  rcases Nat.lt_or_ge a 0x1e80 with c | c
  rotate_left
  rcases Nat.lt_or_ge a 0x1f00 with c | c
  rcases Nat.lt_or_ge (a % 8) 2 with p | p
  rotate_left
  rcases Nat.lt_or_ge (a % 8) 4 with q | q
  rotate_left
  rcases Nat.lt_or_ge (a % 8) 5 with r | r
  rotate_left
  rcases Nat.lt_or_ge (a % 8) 6 with s | s
  rotate_left
  rcases Nat.lt_or_ge (a % 8) 7 with t | t
  rotate_left 2
  rcases Nat.lt_or_ge a 0x1f80 with c | c
  rotate_left
  rcases Nat.lt_or_ge a 0x2000 with c | c
  rotate_left
  rcases Nat.lt_or_ge a 0x2800 with c | c
  rotate_left
  rcases Nat.lt_or_ge a 0x3000 with c | c
  rotate_left
  rcases Nat.lt_or_ge a 0x37c0 with c | c
  rotate_left
  rcases Nat.lt_or_ge a 0x3c00 with c | c
  rotate_left
  rcases Nat.lt_or_ge a 0x3d00 with c | c
  rotate_left
  rcases Nat.lt_or_ge a 0x3e00 with c | c
  rotate_left
  rcases Nat.lt_or_ge a 0x4000 with c | c
  rotate_left
  rcases Nat.lt_or_ge a 0x8000 with c | c
  rotate_left
  all_goals (repeat (first | rw [if_neg (by omega)] | rw [if_pos (by omega)]))

/-- C18: every address in 0x0000-0xFFFF matches exactly one entry of
`main_map` expanded by its mirror mask: some entry matches it (no address is
unmapped) and no two entries match it (no overlap). -/
theorem main_map_partition (a : Nat) (ha : a < 0x10000) :
    main_map_hits a = 1 ∧
    (∃ e ∈ main_map, MapEntry.hit a e = true) ∧
    main_map.Pairwise (fun e1 e2 => ¬ (MapEntry.hit a e1 = true ∧ MapEntry.hit a e2 = true)) := by
  have h1 := main_map_hits_one a ha
  refine ⟨h1, ?_, ?_⟩
  · apply List.countP_pos_iff.1
    show 0 < main_map_hits a
    omega
  · apply Bits.pairwise_of_countP_le_one
    show main_map_hits a ≤ 1
    omega

/-- C18 witness: 0x1C8A, a mirror of 0x1C82 (start of the vertical A/D
conversion), matches one entry. -/
theorem main_map_partition_witness :
    0x1C8A < 0x10000 ∧ main_map_hits 0x1C8A = 1 :=
  ⟨by decide, (main_map_partition 0x1C8A (by decide)).1⟩

end Jedi
